import Mathlib

/-!
Verification of the blob_queue container format and batching pipeline.

This file shallowly embeds the Rust source of the repository:
* `src/blob/storage.rs` — the container codec (`Container`, `FileHeader`,
  `DataHeader`, `TocEntry`, `save_to_file`, `from_file`, CRC-32 checksum);
* `src/main.rs` — the per-type batch writer loop and the HTTP dispatcher's
  routing decision (`handler`).

Machine integers are modelled as `Nat` with explicit `% 2^32` / `% 2^64`
where the source casts (`as u32`) or where a fixed-width field is written.
Byte streams are `List Nat` (each byte `< 256` where it matters).  Fallible
decoding returns `Except DecodeError`.
-/

namespace BlobQueue

/-- Little-endian serialization of a `u32` value (4 bytes).  Models the byte
image produced by `as_u8_slice::<u32>` on a little-endian target. -/
def le32 (n : Nat) : List Nat :=
  [n % 256, n / 256 % 256, n / 65536 % 256, n / 16777216 % 256]

/-- Little-endian serialization of a `u64` value (8 bytes). -/
def le64 (n : Nat) : List Nat :=
  [n % 256, n / 256 % 256, n / 65536 % 256, n / 16777216 % 256,
   n / 4294967296 % 256, n / 1099511627776 % 256,
   n / 281474976710656 % 256, n / 72057594037927936 % 256]

/-- Decode errors of `Container::from_file`, mirroring the `io::ErrorKind`
values the source returns: `Unsupported` on a magic mismatch (format error),
`InvalidData` on a checksum mismatch (integrity error), and the
`UnexpectedEof` a short read raises inside `byteorder`'s `read_u32`/`read_u64`
or `read_u32_into`. -/
inductive DecodeError where
  | formatError
  | integrityError
  | eofError
deriving DecidableEq

/-- `file.read_u32::<LittleEndian>()`: consume 4 bytes, little-endian. -/
def readU32 : List Nat → Except DecodeError (Nat × List Nat)
  | b0 :: b1 :: b2 :: b3 :: rest =>
      .ok (b0 + 256 * b1 + 65536 * b2 + 16777216 * b3, rest)
  | _ => .error .eofError

/-- `file.read_u64::<LittleEndian>()`: consume 8 bytes, little-endian. -/
def readU64 : List Nat → Except DecodeError (Nat × List Nat)
  | b0 :: b1 :: b2 :: b3 :: b4 :: b5 :: b6 :: b7 :: rest =>
      .ok (b0 + 256 * b1 + 65536 * b2 + 16777216 * b3 + 4294967296 * b4 +
            1099511627776 * b5 + 281474976710656 * b6 +
            72057594037927936 * b7, rest)
  | _ => .error .eofError

/-- `file.read_u32_into::<LittleEndian>(&mut buf)` for a buffer of `n`
values: consume `n` little-endian `u32`s. -/
def readU32s : Nat → List Nat → Except DecodeError (List Nat × List Nat)
  | 0, bs => .ok ([], bs)
  | n + 1, bs =>
      match readU32 bs with
      | .error e => .error e
      | .ok (v, bs) =>
          match readU32s n bs with
          | .error e => .error e
          | .ok (vs, rest) => .ok (v :: vs, rest)

/-- Serialization of a list of `u32` values, 4 little-endian bytes each
(the byte image of `as_u8_slice::<u32>` on an array). -/
def u32sBytes : List Nat → List Nat
  | [] => []
  | v :: vs => le32 v ++ u32sBytes vs

/-- One step of 32 bits of bitwise exclusive or, by fuel over the bit
positions (kernel-reducible, unlike `Nat.xor`'s well-founded recursion). -/
def xorAux : Nat → Nat → Nat → Nat
  | 0, _, _ => 0
  | fuel + 1, a, b =>
      (if a % 2 = b % 2 then 0 else 1) + 2 * xorAux fuel (a / 2) (b / 2)

/-- Bitwise exclusive or on 32-bit words. -/
def xor32 (a b : Nat) : Nat := xorAux 32 a b

/-- The CRC-32 (IEEE 802.3, reflected) polynomial, as used by `crc32fast`. -/
def crcPoly : Nat := 0xEDB88320

/-- `n` bit-rounds of the reflected CRC-32 update. -/
def crcRounds : Nat → Nat → Nat
  | 0, crc => crc
  | n + 1, crc =>
      crcRounds n (if crc % 2 = 1 then xor32 (crc / 2) crcPoly else crc / 2)

/-- `Hasher::update`: fold the CRC state over a byte slice. -/
def crcUpdate (state : Nat) (bytes : List Nat) : Nat :=
  bytes.foldl (fun s b => crcRounds 8 (xor32 s b)) state

/-- CRC-32 of a byte sequence: initial state `0xFFFFFFFF`, update, final
xor with `0xFFFFFFFF` (`Hasher::new` + `update` + `finalize`). -/
def crc32 (bytes : List Nat) : Nat :=
  xor32 (crcUpdate 0xFFFFFFFF bytes) 0xFFFFFFFF

/-- `const MAGIC: u32 = 0xDADADADA`. -/
def MAGIC : Nat := 0xDADADADA

/-- `const VERSION: u32 = 0x00000000`. -/
def VERSION : Nat := 0

/-- `const RESERVED: [u32; 11] = [0; 11]`. -/
def RESERVED : List Nat := List.replicate 11 0

/-- `struct FileHeader { magic: u32, checksum: u32 }`. -/
structure FileHeader where
  magic : Nat
  checksum : Nat
deriving DecidableEq

/-- `struct DataHeader { version: u32, type_id: u32, toc_size: u32,
reserved: [u32; 11] }`. -/
structure DataHeader where
  version : Nat
  type_id : Nat
  toc_size : Nat
  reserved : List Nat
deriving DecidableEq

/-- `struct TocEntry { writer_id: u32, data_size: u32, timestamp: u64 }`. -/
structure TocEntry where
  writer_id : Nat
  data_size : Nat
  timestamp : Nat
deriving DecidableEq

/-- `struct Container { file_header, data_header, toc, data }`. -/
structure Container where
  file_header : FileHeader
  data_header : DataHeader
  toc : List TocEntry
  data : List Nat
deriving DecidableEq

/-- `FileHeader::new(checksum)`. -/
def FileHeader.new (checksum : Nat) : FileHeader :=
  { magic := MAGIC, checksum := checksum }

/-- `FileHeader::as_bytes`: `[magic, checksum]` as little-endian bytes. -/
def FileHeader.as_bytes (fh : FileHeader) : List Nat :=
  le32 fh.magic ++ le32 fh.checksum

/-- `DataHeader::new`. -/
def DataHeader.new (version type_id toc_size : Nat) (reserved : List Nat) :
    DataHeader :=
  { version := version, type_id := type_id, toc_size := toc_size,
    reserved := reserved }

/-- `DataHeader::as_bytes`: `[version, type_id, toc_size]` then the 11
reserved words, as little-endian bytes. -/
def DataHeader.as_bytes (dh : DataHeader) : List Nat :=
  le32 dh.version ++ le32 dh.type_id ++ le32 dh.toc_size ++
    u32sBytes dh.reserved

/-- `TocEntry::new_with_timestamp`. -/
def TocEntry.new_with_timestamp (writer_id data_size timestamp : Nat) :
    TocEntry :=
  { writer_id := writer_id, data_size := data_size, timestamp := timestamp }

/-- `TocEntry::as_bytes`: `writer_id`, `data_size` (4 bytes each) then
`timestamp` (8 bytes), little-endian. -/
def TocEntry.as_bytes (e : TocEntry) : List Nat :=
  le32 e.writer_id ++ le32 e.data_size ++ le64 e.timestamp

/-- Serialization of the whole TOC, entry after entry in order (the
`for toc_entry in self.toc` write loop). -/
def tocBytes : List TocEntry → List Nat
  | [] => []
  | e :: rest => e.as_bytes ++ tocBytes rest

/-- `Container::new(type_id)`: empty container, checksum 0, constant
version and reserved words. -/
def Container.new (type_id : Nat) : Container :=
  { file_header := FileHeader.new 0,
    data_header := DataHeader.new VERSION type_id 0 RESERVED,
    toc := [], data := [] }

/-- `Container::push(writer_id, data)`: append the bytes to the payload and
a TOC entry recording `data.len() as u32` (the `as u32` cast is the explicit
`% 2^32`).  The source stamps the entry with `SystemTime::now()`; the
timestamp is a parameter here, matching `TocEntry::new_with_timestamp`. -/
def Container.push (c : Container) (writer_id : Nat) (data : List Nat)
    (timestamp : Nat) : Container :=
  { c with
    data := c.data ++ data,
    toc := c.toc ++
      [TocEntry.new_with_timestamp writer_id (data.length % 4294967296)
        timestamp] }

/-- `Container::get_data_header`: regenerated from constants and the current
entry count — constant `VERSION` and `RESERVED`, the stored `type_id`, and
`toc.len() as u32`. -/
def Container.get_data_header (c : Container) : DataHeader :=
  DataHeader.new VERSION c.data_header.type_id (c.toc.length % 4294967296)
    RESERVED

/-- Fold of `Hasher::update` over the TOC entries
(`self.toc.iter().for_each(|e| hasher.update(e.as_bytes()))`). -/
def crcFoldToc (state : Nat) (toc : List TocEntry) : Nat :=
  toc.foldl (fun s e => crcUpdate s e.as_bytes) state

/-- `Container::checksum`: CRC-32 streamed over the regenerated data header,
each TOC entry, then the payload. -/
def Container.checksum (c : Container) : Nat :=
  xor32
    (crcUpdate
      (crcFoldToc (crcUpdate 0xFFFFFFFF c.get_data_header.as_bytes) c.toc)
      c.data)
    0xFFFFFFFF

/-- `Container::save_to_file`, as the byte stream it writes: file header
(with the freshly computed checksum), regenerated data header, the TOC
entries in order, then the payload. -/
def Container.save_to_file (c : Container) : List Nat :=
  (FileHeader.new c.checksum).as_bytes ++ c.get_data_header.as_bytes ++
    tocBytes c.toc ++ c.data

/-- The `for _ in 0..toc_size` read loop of `Container::from_file`: each
entry is `writer_id`, `data_size` (u32) and `timestamp` (u64). -/
def readToc : Nat → List Nat → Except DecodeError (List TocEntry × List Nat)
  | 0, bs => .ok ([], bs)
  | n + 1, bs =>
      match readU32 bs with
      | .error e => .error e
      | .ok (w, bs) =>
        match readU32 bs with
        | .error e => .error e
        | .ok (sz, bs) =>
          match readU64 bs with
          | .error e => .error e
          | .ok (ts, bs) =>
            match readToc n bs with
            | .error e => .error e
            | .ok (toc, rest) =>
                .ok (TocEntry.new_with_timestamp w sz ts :: toc, rest)

/-- `Container::from_file`: read the magic (format error if it mismatches),
the stored checksum, version, type_id, toc_size and reserved words, then
`toc_size` TOC entries, then the rest of the stream as payload; recompute
the checksum and fail with an integrity error on disagreement. -/
def Container.from_file (bs : List Nat) : Except DecodeError Container :=
  match readU32 bs with
  | .error e => .error e
  | .ok (magic, bs) =>
    if magic ≠ MAGIC then .error .formatError
    else
      match readU32 bs with
      | .error e => .error e
      | .ok (checksum, bs) =>
        match readU32 bs with
        | .error e => .error e
        | .ok (version, bs) =>
          match readU32 bs with
          | .error e => .error e
          | .ok (type_id, bs) =>
            match readU32 bs with
            | .error e => .error e
            | .ok (toc_size, bs) =>
              match readU32s 11 bs with
              | .error e => .error e
              | .ok (reserved, bs) =>
                match readToc toc_size bs with
                | .error e => .error e
                | .ok (toc, rest) =>
                  let c : Container :=
                    { file_header := FileHeader.new checksum,
                      data_header :=
                        DataHeader.new version type_id toc_size reserved,
                      toc := toc, data := rest }
                  if c.checksum ≠ checksum then .error .integrityError
                  else .ok c

/-- An inbound item as the batch writer task receives it from its channel:
`(writer_id, data)` from `PostData`, plus the arrival timestamp the
`push` call stamps the entry with. -/
abbrev InItem : Type := Nat × List Nat × Nat

/-- Fold a list of inbound items into a fresh container of the given type
by repeated `push` — the inner `for _ in 0..objects_in_container` receive
loop of the batch writer task. -/
def buildContainer (type_id : Nat) (items : List InItem) : Container :=
  items.foldl (fun c it => c.push it.1 it.2.1 it.2.2) (Container.new type_id)

/-- The batch writer loop of `main` for one type, run over a finite prefix
of its channel's stream: while at least `n` items remain, one outer-loop
iteration receives exactly `n` items into a fresh container and persists it;
when fewer than `n` remain, the task is blocked inside the inner receive
loop holding the still-unflushed container of the remaining items.  Returns
the persisted containers, in order, and that in-progress container. -/
def batchRun (n type_id : Nat) (items : List InItem) :
    List Container × Container :=
  if _h : 0 < n ∧ n ≤ items.length then
    let flushed := batchRun n type_id (items.drop n)
    (buildContainer type_id (items.take n) :: flushed.1, flushed.2)
  else ([], buildContainer type_id items)
termination_by items.length
decreasing_by
  simp only [List.length_drop]
  omega

/-- `const WRITER_COUNT: u32 = 10`. -/
def WRITER_COUNT : Nat := 10

/-- The body of a routed POST: `PostData::new(writer_id, whole_body)`. -/
structure PostData where
  writer_id : Nat
  data : List Nat
deriving DecidableEq

/-- Outcome of routing one submission in `handler`: the writer-range
rejection (`reason 42`), the unknown-type rejection (`reason 43`), or the
success response (`state 0`). -/
inductive RouteResult where
  | invalidWriter
  | unknownType
  | accepted
deriving DecidableEq

/-- The per-type channels, as an association list from `type_id` to the
queue of items already enqueued (front = oldest). -/
def findQueue : List (Nat × List PostData) → Nat → Option (List PostData)
  | [], _ => none
  | (k, q) :: rest, t => if k = t then some q else findQueue rest t

/-- Append one item to the queue of the given type, leaving every other
type's queue as it is. -/
def enqueue : List (Nat × List PostData) → Nat → PostData →
    List (Nat × List PostData)
  | [], _, _ => []
  | (k, q) :: rest, type_id, item =>
      (if k = type_id then (k, q ++ [item]) else (k, q)) ::
        enqueue rest type_id item

/-- The routing decision of `handler` for a parsed POST: reject when
`writer_id >= WRITER_COUNT`; otherwise reject when no channel is registered
for `type_id`; otherwise enqueue `(writer_id, body)` on that type's channel
and answer success immediately. -/
def route (channels : List (Nat × List PostData)) (type_id writer_id : Nat)
    (body : List Nat) : RouteResult × List (Nat × List PostData) :=
  if WRITER_COUNT ≤ writer_id then (.invalidWriter, channels)
  else
    match findQueue channels type_id with
    | none => (.unknownType, channels)
    | some _ => (.accepted, enqueue channels type_id ⟨writer_id, body⟩)

/-- The byte sequence `Container::checksum` hashes: regenerated data
header, TOC, payload. -/
def contentBytes (c : Container) : List Nat :=
  c.get_data_header.as_bytes ++ tocBytes c.toc ++ c.data

/-- Well-formedness of a container under Rust's types: `type_id` is a
`u32`, the TOC fits a `u32` count, every entry's fields fit their widths,
and the payload is made of bytes. -/
def WF (c : Container) : Prop :=
  c.data_header.type_id < 4294967296 ∧ c.toc.length < 4294967296 ∧
    (∀ e ∈ c.toc, e.writer_id < 4294967296 ∧ e.data_size < 4294967296 ∧
      e.timestamp < 18446744073709551616) ∧
    ∀ b ∈ c.data, b < 256

/-- The TOC entry `push` creates for one inbound item. -/
def mkEntry (it : InItem) : TocEntry :=
  TocEntry.new_with_timestamp it.1 (it.2.1.length % 4294967296) it.2.2

/-- Concatenation of the payloads of a list of inbound items. -/
def joinData : List InItem → List Nat
  | [] => []
  | it :: rest => it.2.1 ++ joinData rest

/-- Sum of the recorded `data_size` fields of a TOC. -/
def sumDataSizes : List TocEntry → Nat
  | [] => 0
  | e :: rest => e.data_size + sumDataSizes rest

/-! ### Serialization lemmas -/

theorem le32_length (n : Nat) : (le32 n).length = 4 := rfl

theorem le64_length (n : Nat) : (le64 n).length = 8 := rfl

theorem le32_lt (n : Nat) : ∀ b ∈ le32 n, b < 256 := by
  simp only [le32, List.mem_cons, List.not_mem_nil, or_false]
  rintro b (rfl | rfl | rfl | rfl) <;> omega

theorem le64_lt (n : Nat) : ∀ b ∈ le64 n, b < 256 := by
  simp only [le64, List.mem_cons, List.not_mem_nil, or_false]
  rintro b (rfl | rfl | rfl | rfl | rfl | rfl | rfl | rfl) <;> omega

theorem u32sBytes_length (vs : List Nat) :
    (u32sBytes vs).length = 4 * vs.length := by
  induction vs with
  | nil => rfl
  | cons v vs ih =>
      simp [u32sBytes, List.length_append, ih, le32_length]
      omega

theorem u32sBytes_lt (vs : List Nat) : ∀ b ∈ u32sBytes vs, b < 256 := by
  induction vs with
  | nil => simp [u32sBytes]
  | cons v vs ih =>
      simp only [u32sBytes, List.mem_append]
      rintro b (hb | hb)
      · exact le32_lt v b hb
      · exact ih b hb

theorem tocEntry_as_bytes_length (e : TocEntry) : e.as_bytes.length = 16 :=
  rfl

theorem tocBytes_length (toc : List TocEntry) :
    (tocBytes toc).length = 16 * toc.length := by
  induction toc with
  | nil => rfl
  | cons e rest ih =>
      simp [tocBytes, List.length_append, tocEntry_as_bytes_length, ih]
      omega

theorem tocEntry_as_bytes_lt (e : TocEntry) : ∀ b ∈ e.as_bytes, b < 256 := by
  simp only [TocEntry.as_bytes, List.mem_append]
  rintro b ((hb | hb) | hb)
  · exact le32_lt _ b hb
  · exact le32_lt _ b hb
  · exact le64_lt _ b hb

theorem tocBytes_lt (toc : List TocEntry) : ∀ b ∈ tocBytes toc, b < 256 := by
  induction toc with
  | nil => simp [tocBytes]
  | cons e rest ih =>
      simp only [tocBytes, List.mem_append]
      rintro b (hb | hb)
      · exact tocEntry_as_bytes_lt e b hb
      · exact ih b hb

theorem le32_mod (n : Nat) : le32 (n % 4294967296) = le32 n := by
  simp only [le32, List.cons.injEq, and_true]
  refine ⟨?_, ?_, ?_, ?_⟩ <;> omega

theorem le64_mod (n : Nat) : le64 (n % 18446744073709551616) = le64 n := by
  simp only [le64, List.cons.injEq, and_true]
  refine ⟨?_, ?_, ?_, ?_, ?_, ?_, ?_, ?_⟩ <;> omega

theorem le32_val (b0 b1 b2 b3 : Nat) (h0 : b0 < 256) (h1 : b1 < 256)
    (h2 : b2 < 256) (h3 : b3 < 256) :
    le32 (b0 + 256 * b1 + 65536 * b2 + 16777216 * b3) = [b0, b1, b2, b3] := by
  simp only [le32, List.cons.injEq, and_true]
  refine ⟨?_, ?_, ?_, ?_⟩ <;> omega

theorem readU32_le32 (n : Nat) (rest : List Nat) :
    readU32 (le32 n ++ rest) = .ok (n % 4294967296, rest) := by
  simp only [le32, List.cons_append, List.nil_append, readU32,
    Except.ok.injEq, Prod.mk.injEq, and_true]
  omega

theorem readU64_le64 (n : Nat) (rest : List Nat) :
    readU64 (le64 n ++ rest) = .ok (n % 18446744073709551616, rest) := by
  simp only [le64, List.cons_append, List.nil_append, readU64,
    Except.ok.injEq, Prod.mk.injEq, and_true]
  omega

theorem readU32s_u32sBytes (vs : List Nat) (rest : List Nat)
    (hv : ∀ v ∈ vs, v < 4294967296) :
    readU32s vs.length (u32sBytes vs ++ rest) = .ok (vs, rest) := by
  induction vs with
  | nil => rfl
  | cons v vs ih =>
      have hv1 : v % 4294967296 = v :=
        Nat.mod_eq_of_lt (hv v (List.mem_cons_self v vs))
      simp only [List.length_cons, u32sBytes, List.append_assoc, readU32s,
        readU32_le32, hv1, ih fun x hx => hv x (List.mem_cons_of_mem v hx)]

theorem readToc_tocBytes (toc : List TocEntry) (rest : List Nat)
    (he : ∀ e ∈ toc, e.writer_id < 4294967296 ∧ e.data_size < 4294967296 ∧
      e.timestamp < 18446744073709551616) :
    readToc toc.length (tocBytes toc ++ rest) = .ok (toc, rest) := by
  induction toc with
  | nil => rfl
  | cons e toc ih =>
      obtain ⟨hw, hsz, hts⟩ := he e (List.mem_cons_self e toc)
      simp only [List.length_cons, tocBytes, TocEntry.as_bytes,
        List.append_assoc, readToc, readU32_le32,
        Nat.mod_eq_of_lt hw, Nat.mod_eq_of_lt hsz, readU64_le64,
        Nat.mod_eq_of_lt hts,
        ih fun x hx => he x (List.mem_cons_of_mem e hx)]
      rfl

/-! ### CRC lemmas -/

theorem crcUpdate_nil (s : Nat) : crcUpdate s [] = s := rfl

theorem crcUpdate_append (s : Nat) (a b : List Nat) :
    crcUpdate s (a ++ b) = crcUpdate (crcUpdate s a) b :=
  List.foldl_append _ _ a b

theorem crcFoldToc_eq_crcUpdate (s : Nat) (toc : List TocEntry) :
    crcFoldToc s toc = crcUpdate s (tocBytes toc) := by
  induction toc generalizing s with
  | nil => rfl
  | cons e toc ih =>
      rw [crcFoldToc, List.foldl_cons, tocBytes, crcUpdate_append]
      exact ih (crcUpdate s e.as_bytes)

/-- The streamed checksum of the source equals CRC-32 over the
concatenation of the regenerated data header, the TOC bytes and the
payload. -/
theorem checksum_eq_crc32 (c : Container) :
    c.checksum = crc32 (contentBytes c) := by
  simp only [Container.checksum, contentBytes, crc32, crcUpdate_append,
    crcFoldToc_eq_crcUpdate]

/-- `Container::checksum` reads only the type id, the TOC and the payload:
the stored version, toc_size and reserved words are regenerated from
constants. -/
theorem checksum_congr (c c' : Container)
    (hty : c.data_header.type_id = c'.data_header.type_id)
    (htoc : c.toc = c'.toc) (hdata : c.data = c'.data) :
    c.checksum = c'.checksum := by
  simp only [Container.checksum, Container.get_data_header, DataHeader.new,
    DataHeader.as_bytes, hty, htoc, hdata]

/-! ### Building a container by repeated push -/

theorem foldl_push (c : Container) (items : List InItem) :
    items.foldl (fun c it => c.push it.1 it.2.1 it.2.2) c =
      { c with toc := c.toc ++ items.map mkEntry,
               data := c.data ++ joinData items } := by
  induction items generalizing c with
  | nil => simp [joinData]
  | cons it items ih =>
      rw [List.foldl_cons, ih]
      simp only [Container.push, List.map_cons, joinData, mkEntry,
        List.append_assoc, List.cons_append, List.nil_append]

theorem buildContainer_eq (t : Nat) (items : List InItem) :
    buildContainer t items =
      { file_header := FileHeader.new 0,
        data_header := DataHeader.new VERSION t 0 RESERVED,
        toc := items.map mkEntry, data := joinData items } := by
  simp [buildContainer, foldl_push, Container.new]

/-! ### Decoding a stream of the on-disk shape -/

theorem readU32s_len (n : Nat) (vs : List Nat) (rest : List Nat)
    (hn : vs.length = n) (hv : ∀ v ∈ vs, v < 4294967296) :
    readU32s n (u32sBytes vs ++ rest) = .ok (vs, rest) :=
  hn ▸ readU32s_u32sBytes vs rest hv

/-- Decoding a byte stream with a well-formed header region: the magic
matches, then each header field is read back, `toc_size` entries are
parsed from the remainder, and the checksum guard decides the outcome. -/
theorem from_file_generic (chk ver ty s : Nat) (rsv B : List Nat)
    (hchk : chk < 4294967296) (hver : ver < 4294967296)
    (hty : ty < 4294967296) (hs : s < 4294967296)
    (hrsv : rsv.length = 11) (hv : ∀ v ∈ rsv, v < 4294967296) :
    Container.from_file (le32 MAGIC ++ le32 chk ++ le32 ver ++ le32 ty ++
        le32 s ++ u32sBytes rsv ++ B) =
      match readToc s B with
      | .error e => .error e
      | .ok (toc, rest) =>
          if (Container.mk (FileHeader.new chk)
                (DataHeader.new ver ty s rsv) toc rest).checksum ≠ chk then
            .error .integrityError
          else
            .ok (Container.mk (FileHeader.new chk)
                  (DataHeader.new ver ty s rsv) toc rest) := by
  have hmagic : (MAGIC : Nat) % 4294967296 = MAGIC := by decide
  simp only [Container.from_file, List.append_assoc, readU32_le32, hmagic,
    Nat.mod_eq_of_lt hchk, Nat.mod_eq_of_lt hver, Nat.mod_eq_of_lt hty,
    Nat.mod_eq_of_lt hs, readU32s_len 11 rsv _ hrsv hv, ne_eq,
    not_true_eq_false, if_false, ite_false]

theorem xorAux_lt (fuel : Nat) (a b : Nat) : xorAux fuel a b < 2 ^ fuel := by
  induction fuel generalizing a b with
  | zero => simp [xorAux]
  | succ n ih =>
      have h := ih (a / 2) (b / 2)
      simp only [xorAux, pow_succ]
      split <;> omega

theorem xor32_lt (a b : Nat) : xor32 a b < 4294967296 := xorAux_lt 32 a b

theorem checksum_lt (c : Container) : c.checksum < 4294967296 :=
  xor32_lt _ _

theorem RESERVED_length : RESERVED.length = 11 := rfl

theorem RESERVED_lt : ∀ v ∈ RESERVED, v < 4294967296 := by
  intro v hv
  simp [RESERVED] at hv
  simp [hv]

/-- Round trip of the codec on a well-formed container: decoding the
written bytes succeeds and returns the container with the file header's
checksum filled in and the data header regenerated (version and reserved
from the constants, `toc_size` from the entry count). -/
theorem from_file_save_to_file (c : Container)
    (hty : c.data_header.type_id < 4294967296)
    (hlen : c.toc.length < 4294967296)
    (hent : ∀ e ∈ c.toc, e.writer_id < 4294967296 ∧
      e.data_size < 4294967296 ∧ e.timestamp < 18446744073709551616) :
    Container.from_file c.save_to_file =
      .ok (Container.mk (FileHeader.new c.checksum)
        (DataHeader.new VERSION c.data_header.type_id c.toc.length RESERVED)
        c.toc c.data) := by
  have hbytes : c.save_to_file =
      le32 MAGIC ++ le32 c.checksum ++ le32 VERSION ++
        le32 c.data_header.type_id ++ le32 c.toc.length ++
        u32sBytes RESERVED ++ (tocBytes c.toc ++ c.data) := by
    simp only [Container.save_to_file, FileHeader.new, FileHeader.as_bytes,
      Container.get_data_header, DataHeader.new, DataHeader.as_bytes,
      Nat.mod_eq_of_lt hlen, List.append_assoc]
  rw [hbytes, from_file_generic c.checksum VERSION c.data_header.type_id
    c.toc.length RESERVED (tocBytes c.toc ++ c.data) (checksum_lt c)
    (by decide) hty hlen RESERVED_length RESERVED_lt,
    readToc_tocBytes c.toc c.data hent]
  have hc : (Container.mk (FileHeader.new c.checksum)
      (DataHeader.new VERSION c.data_header.type_id c.toc.length RESERVED)
      c.toc c.data).checksum = c.checksum :=
    checksum_congr _ c rfl rfl rfl
  simp [hc]

theorem mkEntry_bounds (it : InItem) (hw : it.1 < 4294967296)
    (hts : it.2.2 < 18446744073709551616) :
    (mkEntry it).writer_id < 4294967296 ∧
      (mkEntry it).data_size < 4294967296 ∧
      (mkEntry it).timestamp < 18446744073709551616 := by
  refine ⟨hw, ?_, hts⟩
  exact Nat.mod_lt _ (by norm_num)

theorem buildContainer_roundtrip (t : Nat) (items : List InItem)
    (ht : t < 4294967296)
    (hit : ∀ it ∈ items, it.1 < 4294967296 ∧
      it.2.2 < 18446744073709551616)
    (hn : items.length < 4294967296) :
    Container.from_file (buildContainer t items).save_to_file =
      .ok (Container.mk (FileHeader.new (buildContainer t items).checksum)
        (DataHeader.new VERSION t items.length RESERVED)
        (items.map mkEntry) (joinData items)) := by
  have hb := buildContainer_eq t items
  have h1 : (buildContainer t items).data_header.type_id = t := by
    simp [hb, DataHeader.new]
  have h2 : (buildContainer t items).toc = items.map mkEntry := by
    simp [hb]
  have h3 : (buildContainer t items).data = joinData items := by
    simp [hb]
  have h4 : (buildContainer t items).toc.length = items.length := by
    rw [h2, List.length_map]
  have hent : ∀ e ∈ (buildContainer t items).toc,
      e.writer_id < 4294967296 ∧ e.data_size < 4294967296 ∧
        e.timestamp < 18446744073709551616 := by
    rw [h2]
    intro e he
    obtain ⟨it, hmem, rfl⟩ := List.mem_map.mp he
    exact mkEntry_bounds it (hit it hmem).1 (hit it hmem).2
  rw [from_file_save_to_file (buildContainer t items)
    (by rw [h1]; exact ht) (by rw [h4]; exact hn) hent, h4, h1, h2, h3]

theorem joinData_replicate_nil (n : Nat) (it : InItem) (h : it.2.1 = []) :
    joinData (List.replicate n it) = [] := by
  induction n with
  | zero => rfl
  | succ n ih => simp [List.replicate_succ, joinData, h, ih]

/-! ### Claim C1 -/

/-- C1 (amended): the round trip holds for every sequence of fewer than
`2^32` appended `(writer_id, bytes)` pairs (with `writer_id : u32` and the
timestamps `u64`, as in the source): decoding the written bytes succeeds
and yields the same `type_id`, the same ordered TOC and a payload that is
byte-identical to the concatenation of the appended byte strings. -/
theorem c1_roundtrip (t : Nat) (items : List InItem)
    (ht : t < 4294967296)
    (hit : ∀ it ∈ items, it.1 < 4294967296 ∧
      it.2.2 < 18446744073709551616)
    (hn : items.length < 4294967296) :
    ∃ c', Container.from_file (buildContainer t items).save_to_file =
        .ok c' ∧
      c'.data_header.type_id = (buildContainer t items).data_header.type_id ∧
      c'.toc = (buildContainer t items).toc ∧
      c'.data = (buildContainer t items).data ∧
      c'.data = joinData items := by
  refine ⟨_, buildContainer_roundtrip t items ht hit hn, ?_, ?_, ?_, rfl⟩
  · simp [buildContainer_eq, DataHeader.new]
  · simp [buildContainer_eq]
  · simp [buildContainer_eq]

/-- Witness for C1 at a concrete two-append run of type 7. -/
theorem c1_roundtrip_witness :
    ∃ c', Container.from_file
        (buildContainer 7 [(1, ([104, 105], 3)), (2, ([200], 4))]).save_to_file =
        .ok c' ∧
      c'.data_header.type_id =
        (buildContainer 7 [(1, ([104, 105], 3)), (2, ([200], 4))]).data_header.type_id ∧
      c'.toc = (buildContainer 7 [(1, ([104, 105], 3)), (2, ([200], 4))]).toc ∧
      c'.data = (buildContainer 7 [(1, ([104, 105], 3)), (2, ([200], 4))]).data ∧
      c'.data = joinData [(1, ([104, 105], 3)), (2, ([200], 4))] :=
  c1_roundtrip 7 [(1, ([104, 105], 3)), (2, ([200], 4))] (by decide)
    (by decide) (by decide)

/-- When the entry count wraps to `0` modulo `2^32`, the written stream
declares `toc_size = 0`, so decoding succeeds and returns an empty TOC. -/
theorem toc_wrap_decode (n : Nat) (hn : n % 4294967296 = 0) :
    ∃ c', Container.from_file
        (buildContainer 0 (List.replicate n (1, ([], 0)))).save_to_file =
        Except.ok c' ∧
      c'.toc = [] ∧
      (buildContainer 0 (List.replicate n (1, ([], 0)))).toc.length = n := by
  have hb := buildContainer_eq 0 (List.replicate n (1, ([], 0)))
  have htoc : (buildContainer 0 (List.replicate n (1, ([], 0)))).toc =
      List.replicate n (mkEntry (1, ([], 0))) := by
    rw [hb]
    exact List.map_replicate
  have hlen : (buildContainer 0 (List.replicate n (1, ([], 0)))).toc.length =
      n := by
    rw [htoc, List.length_replicate]
  have hdata : (buildContainer 0 (List.replicate n (1, ([], 0)))).data = [] := by
    rw [hb]
    exact joinData_replicate_nil n _ rfl
  have hty : (buildContainer 0
      (List.replicate n (1, ([], 0)))).data_header.type_id = 0 := by
    rw [hb]
    rfl
  set c0 := buildContainer 0 (List.replicate n (1, ([], 0))) with hc0
  have hbytes : c0.save_to_file =
      le32 MAGIC ++ le32 c0.checksum ++ le32 VERSION ++ le32 0 ++ le32 0 ++
        u32sBytes RESERVED ++ tocBytes c0.toc := by
    simp only [Container.save_to_file, FileHeader.new, FileHeader.as_bytes,
      Container.get_data_header, DataHeader.new, DataHeader.as_bytes, hty,
      hlen, hdata, hn, List.append_assoc, List.append_nil]
  rw [hbytes, from_file_generic c0.checksum VERSION 0 0 RESERVED
    (tocBytes c0.toc) (checksum_lt c0) (by decide) (by decide) (by decide)
    RESERVED_length RESERVED_lt]
  have hcs : (Container.mk (FileHeader.new c0.checksum)
      (DataHeader.new VERSION 0 0 RESERVED) [] (tocBytes c0.toc)).checksum =
      c0.checksum := by
    rw [checksum_eq_crc32, checksum_eq_crc32]
    congr 1
    simp only [contentBytes, Container.get_data_header, DataHeader.new,
      DataHeader.as_bytes, hty, hlen, hdata, hn, tocBytes,
      List.length_nil, Nat.zero_mod, List.append_nil, List.nil_append]
  simp only [readToc, hcs, ne_eq, not_true_eq_false, if_false, ite_false]
  exact ⟨_, rfl, rfl, hlen⟩

/-- Counterexample to C1 as stated: a fresh container receiving `2^32`
pushes (possible in the source, where the sequence length is a `usize`)
encodes with a wrapped `toc_size` of `0`, so decoding succeeds but returns
an empty TOC instead of the `2^32` appended entries. -/
theorem c1_counterexample :
    ∃ c', Container.from_file
        (buildContainer 0 (List.replicate 4294967296 (1, ([], 0)))).save_to_file =
        Except.ok c' ∧
      c'.toc = [] ∧
      (buildContainer 0 (List.replicate 4294967296 (1, ([], 0)))).toc.length =
        4294967296 :=
  toc_wrap_decode 4294967296 (by decide)

/-! ### Claim C4 -/

theorem u32sBytes_RESERVED : u32sBytes RESERVED = List.replicate 44 0 := by
  decide

theorem tocBytes_eq_flatten (toc : List TocEntry) :
    tocBytes toc = (toc.map fun e =>
      le32 e.writer_id ++ (le32 e.data_size ++ le64 e.timestamp)).flatten := by
  induction toc with
  | nil => rfl
  | cons e rest ih => simp [tocBytes, ih, TocEntry.as_bytes]

/-- C4 (amended): for a container with fewer than `2^32` entries (the
`toc_size` field is the entry count modulo `2^32`), the encoder produces
exactly the claimed little-endian layout: magic, checksum, version,
type_id, `toc_size` equal to the entry count, 44 zero bytes, one 16-byte
record per entry in append order, then the payload. -/
theorem c4_layout (c : Container) (h : c.toc.length < 4294967296) :
    c.save_to_file =
      le32 MAGIC ++ le32 c.checksum ++ le32 VERSION ++
        le32 c.data_header.type_id ++ le32 c.toc.length ++
        List.replicate 44 0 ++
        (c.toc.map fun e =>
          le32 e.writer_id ++ le32 e.data_size ++ le64 e.timestamp).flatten ++
        c.data := by
  simp only [Container.save_to_file, FileHeader.new, FileHeader.as_bytes,
    Container.get_data_header, DataHeader.new, DataHeader.as_bytes,
    Nat.mod_eq_of_lt h, u32sBytes_RESERVED, tocBytes_eq_flatten,
    List.append_assoc]

/-- Witness for C4 on a concrete one-entry container. -/
theorem c4_layout_witness :
    ((Container.new 3).push 1 [7] 9).save_to_file =
      le32 MAGIC ++ le32 ((Container.new 3).push 1 [7] 9).checksum ++
        le32 VERSION ++
        le32 ((Container.new 3).push 1 [7] 9).data_header.type_id ++
        le32 ((Container.new 3).push 1 [7] 9).toc.length ++
        List.replicate 44 0 ++
        (((Container.new 3).push 1 [7] 9).toc.map fun e =>
          le32 e.writer_id ++ le32 e.data_size ++ le64 e.timestamp).flatten ++
        ((Container.new 3).push 1 [7] 9).data :=
  c4_layout ((Container.new 3).push 1 [7] 9) (by decide)

/-- The `toc_size` field of the stream written for a container whose entry
count wraps modulo `2^32` holds the wrapped value. -/
theorem toc_wrap_field (n : Nat) (hn : n % 4294967296 = 0) :
    (((buildContainer 0 (List.replicate n (1, ([], 0)))).save_to_file.drop
        16).take 4) = [0, 0, 0, 0] ∧
      (buildContainer 0 (List.replicate n (1, ([], 0)))).toc.length = n := by
  have hb := buildContainer_eq 0 (List.replicate n (1, ([], 0)))
  have hlen : (buildContainer 0 (List.replicate n (1, ([], 0)))).toc.length =
      n := by
    rw [hb]
    simp only [List.length_map, List.length_replicate]
  have hty : (buildContainer 0
      (List.replicate n (1, ([], 0)))).data_header.type_id = 0 := by
    rw [hb]
    rfl
  refine ⟨?_, hlen⟩
  have hbytes : (buildContainer 0 (List.replicate n (1, ([], 0)))).save_to_file =
      le32 MAGIC ++
        le32 (buildContainer 0 (List.replicate n (1, ([], 0)))).checksum ++
        le32 VERSION ++ le32 0 ++ le32 0 ++ u32sBytes RESERVED ++
        (tocBytes (buildContainer 0 (List.replicate n (1, ([], 0)))).toc ++
          (buildContainer 0 (List.replicate n (1, ([], 0)))).data) := by
    simp only [Container.save_to_file, FileHeader.new, FileHeader.as_bytes,
      Container.get_data_header, DataHeader.new, DataHeader.as_bytes, hty,
      hlen, hn, List.append_assoc]
  rw [hbytes]
  simp [le32, MAGIC, VERSION]

/-- Counterexample to C4 as stated: at `2^32` entries the `toc_size` field
of the written layout holds `0`, not the entry count. -/
theorem c4_counterexample :
    (((buildContainer 0
        (List.replicate 4294967296 (1, ([], 0)))).save_to_file.drop 16).take
        4) = [0, 0, 0, 0] ∧
      (buildContainer 0
        (List.replicate 4294967296 (1, ([], 0)))).toc.length = 4294967296 :=
  toc_wrap_field 4294967296 (by decide)

/-! ### Claim C5 -/

/-- C5: appending `(1, b"hello")` then `(2, b"world!")` to an empty
container of type 7 yields TOC `[(1,5,t1),(2,6,t2)]`, payload
`b"helloworld!"`, and a checksum equal to CRC-32 over the data header
bytes (version 0, type 7, toc_size 2, reserved zero) concatenated with
the TOC bytes and the payload. -/
theorem c5_concrete_scenario (t1 t2 : Nat) :
    (((Container.new 7).push 1 [104, 101, 108, 108, 111] t1).push 2
        [119, 111, 114, 108, 100, 33] t2).toc =
      [TocEntry.new_with_timestamp 1 5 t1,
        TocEntry.new_with_timestamp 2 6 t2] ∧
    (((Container.new 7).push 1 [104, 101, 108, 108, 111] t1).push 2
        [119, 111, 114, 108, 100, 33] t2).data =
      [104, 101, 108, 108, 111, 119, 111, 114, 108, 100, 33] ∧
    (((Container.new 7).push 1 [104, 101, 108, 108, 111] t1).push 2
        [119, 111, 114, 108, 100, 33] t2).checksum =
      crc32 ((DataHeader.new 0 7 2 RESERVED).as_bytes ++
        tocBytes [TocEntry.new_with_timestamp 1 5 t1,
          TocEntry.new_with_timestamp 2 6 t2] ++
        [104, 101, 108, 108, 111, 119, 111, 114, 108, 100, 33]) := by
  refine ⟨by simp [Container.push, Container.new], by simp [Container.push, Container.new], ?_⟩
  rw [checksum_eq_crc32]
  congr 1

/-! ### Claim C7 -/

theorem sumDataSizes_append (a b : List TocEntry) :
    sumDataSizes (a ++ b) = sumDataSizes a + sumDataSizes b := by
  induction a with
  | nil => simp [sumDataSizes]
  | cons e a ih => simp [sumDataSizes, ih]; omega

/-- C7 (amended): the invariant `sum of data_size = payload length` holds
for a newly created container and is preserved by every push of a byte
string shorter than `2^32` bytes. -/
theorem c7_invariant :
    (∀ t, sumDataSizes (Container.new t).toc =
      (Container.new t).data.length) ∧
    ∀ (c : Container) (w : Nat) (d : List Nat) (ts : Nat),
      sumDataSizes c.toc = c.data.length → d.length < 4294967296 →
      sumDataSizes (c.push w d ts).toc = (c.push w d ts).data.length := by
  constructor
  · intro t
    rfl
  · intro c w d ts hinv hd
    simp [Container.push, sumDataSizes_append, sumDataSizes,
      TocEntry.new_with_timestamp, Nat.mod_eq_of_lt hd, hinv]

/-- Witness for C7: the invariant carried from a fresh container through
one concrete push. -/
theorem c7_invariant_witness :
    sumDataSizes ((Container.new 0).push 1 [5, 6] 3).toc =
      ((Container.new 0).push 1 [5, 6] 3).data.length :=
  c7_invariant.2 (Container.new 0) 1 [5, 6] 3 (c7_invariant.1 0) (by decide)

/-- A push whose byte length wraps modulo `2^32` records a `data_size`
smaller than the payload growth. -/
theorem push_wrap_sum (n : Nat) (hn : n % 4294967296 = 0) :
    sumDataSizes ((Container.new 0).push 1 (List.replicate n 0) 0).toc = 0 ∧
      ((Container.new 0).push 1 (List.replicate n 0) 0).data.length = n := by
  constructor
  · simp only [Container.push, Container.new, sumDataSizes_append,
      sumDataSizes, TocEntry.new_with_timestamp, List.length_replicate, hn,
      List.nil_append]
  · simp only [Container.push, Container.new, List.nil_append,
      List.length_replicate]

/-- Counterexample to C7 as stated: pushing a `2^32`-byte string (possible
in the source, where `Vec` length is a `usize`) records `data_size = 0`
while the payload grows by `2^32` bytes, breaking the invariant. -/
theorem c7_counterexample :
    sumDataSizes ((Container.new 0).push 1
        (List.replicate 4294967296 0) 0).toc ≠
      ((Container.new 0).push 1 (List.replicate 4294967296 0) 0).data.length := by
  have h := push_wrap_sum 4294967296 (by decide)
  rw [h.1, h.2]
  decide

/-! ### Claim C10 -/

/-- C10: `push` records the new entry's `data_size` as the byte length
reduced modulo `2^32` while the payload grows by the full byte string; for
data shorter than `2^32` bytes the recorded size is the exact length. -/
theorem c10_push (c : Container) (w : Nat) (d : List Nat) (ts : Nat) :
    (c.push w d ts).toc =
      c.toc ++ [TocEntry.new_with_timestamp w (d.length % 4294967296) ts] ∧
    (c.push w d ts).data = c.data ++ d ∧
    (d.length < 4294967296 →
      (c.push w d ts).toc.getLast? =
        some (TocEntry.new_with_timestamp w d.length ts)) := by
  refine ⟨rfl, rfl, fun hd => ?_⟩
  simp [Container.push, Nat.mod_eq_of_lt hd]

/-- Witness for C10 at a concrete push. -/
theorem c10_push_witness :
    ((Container.new 0).push 3 [9, 9, 9] 7).toc.getLast? =
      some (TocEntry.new_with_timestamp 3 3 7) :=
  (c10_push (Container.new 0) 3 [9, 9, 9] 7).2.2 (by decide)

/-! ### Claim C6 -/

/-- C6: any input whose first four bytes are not the little-endian magic
constant is rejected with the format error (not the integrity error),
whatever the rest of the stream holds — the magic comparison happens
before any other field is read. -/
theorem c6_magic_check (b0 b1 b2 b3 : Nat) (rest : List Nat)
    (h0 : b0 < 256) (h1 : b1 < 256) (h2 : b2 < 256) (h3 : b3 < 256)
    (h : [b0, b1, b2, b3] ≠ le32 MAGIC) :
    Container.from_file (b0 :: b1 :: b2 :: b3 :: rest) =
      .error .formatError ∧
      DecodeError.formatError ≠ DecodeError.integrityError := by
  have hv : b0 + 256 * b1 + 65536 * b2 + 16777216 * b3 ≠ MAGIC := by
    intro he
    exact h ((le32_val b0 b1 b2 b3 h0 h1 h2 h3).symm.trans (by rw [he]))
  refine ⟨?_, by decide⟩
  simp only [Container.from_file, readU32]
  rw [if_pos hv]

/-- Witness for C6 at the all-zero four-byte prefix. -/
theorem c6_magic_check_witness :
    Container.from_file [0, 0, 0, 0] = .error .formatError ∧
      DecodeError.formatError ≠ DecodeError.integrityError :=
  c6_magic_check 0 0 0 0 [] (by decide) (by decide) (by decide) (by decide)
    (by decide)

/-! ### Claim C8 -/

theorem findQueue_enqueue_eq (cs : List (Nat × List PostData)) (t : Nat)
    (p : PostData) (q : List PostData) (hq : findQueue cs t = some q) :
    findQueue (enqueue cs t p) t = some (q ++ [p]) := by
  induction cs with
  | nil => simp [findQueue] at hq
  | cons kv cs ih =>
      obtain ⟨k, qv⟩ := kv
      rw [enqueue]
      by_cases hk : k = t
      · rw [findQueue, if_pos hk] at hq
        cases hq
        rw [if_pos hk, findQueue, if_pos hk]
      · rw [findQueue, if_neg hk] at hq
        rw [if_neg hk, findQueue, if_neg hk]
        exact ih hq

theorem findQueue_enqueue_ne (cs : List (Nat × List PostData)) (t u : Nat)
    (p : PostData) (hu : u ≠ t) :
    findQueue (enqueue cs t p) u = findQueue cs u := by
  induction cs with
  | nil => rfl
  | cons kv cs ih =>
      obtain ⟨k, qv⟩ := kv
      rw [enqueue]
      by_cases hk : k = t
      · have hku : ¬k = u := fun h => hu (h ▸ hk)
        rw [if_pos hk, findQueue, findQueue, if_neg hku, if_neg hku]
        exact ih
      · rw [if_neg hk, findQueue, findQueue]
        by_cases hku : k = u
        · rw [if_pos hku, if_pos hku]
        · rw [if_neg hku, if_neg hku]
          exact ih

/-- C8: routing a submission with an out-of-range writer id or an
unregistered type id is rejected and leaves every channel untouched; a
submission with a known type and in-range writer is answered with success
and appended to exactly that type's channel, all others unchanged. -/
theorem c8_route (channels : List (Nat × List PostData))
    (type_id writer_id : Nat) (body : List Nat) :
    ((WRITER_COUNT ≤ writer_id ∨ findQueue channels type_id = none) →
      (route channels type_id writer_id body).1 ≠ .accepted ∧
      (route channels type_id writer_id body).2 = channels) ∧
    ∀ q, writer_id < WRITER_COUNT → findQueue channels type_id = some q →
      (route channels type_id writer_id body).1 = .accepted ∧
      findQueue (route channels type_id writer_id body).2 type_id =
        some (q ++ [⟨writer_id, body⟩]) ∧
      ∀ u, u ≠ type_id →
        findQueue (route channels type_id writer_id body).2 u =
          findQueue channels u := by
  constructor
  · rintro (hw | hq)
    · simp [route, if_pos hw]
    · rcases Nat.lt_or_ge writer_id WRITER_COUNT with hlt | hge
      · simp [route, Nat.not_le.mpr hlt, hq]
      · simp [route, if_pos hge]
  · intro q hw hq
    have hroute : route channels type_id writer_id body =
        (.accepted, enqueue channels type_id ⟨writer_id, body⟩) := by
      simp [route, Nat.not_le.mpr hw, hq]
    refine ⟨by rw [hroute], ?_, ?_⟩
    · rw [hroute]
      exact findQueue_enqueue_eq channels type_id ⟨writer_id, body⟩ q hq
    · intro u hu
      rw [hroute]
      exact findQueue_enqueue_ne channels type_id u ⟨writer_id, body⟩ hu

/-- Witness for C8: a rejected out-of-range writer and unknown type leave
the channels unchanged, and an accepted submission lands on its channel. -/
theorem c8_route_witness :
    ((route [(5, [])] 5 12 []).1 ≠ .accepted ∧
      (route [(5, [])] 5 12 []).2 = [(5, [])]) ∧
    ((route [(5, [])] 6 2 []).1 ≠ .accepted ∧
      (route [(5, [])] 6 2 []).2 = [(5, [])]) ∧
    ((route [(5, [])] 5 2 [1]).1 = .accepted ∧
      findQueue (route [(5, [])] 5 2 [1]).2 5 = some [⟨2, [1]⟩]) := by
  refine ⟨(c8_route [(5, [])] 5 12 []).1 (Or.inl (by decide)),
    (c8_route [(5, [])] 6 2 []).1 (Or.inr (by decide)), ?_⟩
  have h := (c8_route [(5, [])] 5 2 [1]).2 [] (by decide) (by decide)
  exact ⟨h.1, by simpa using h.2.1⟩

/-! ### Claim C3 -/

theorem buildContainer_toc_length (t : Nat) (items : List InItem) :
    (buildContainer t items).toc.length = items.length := by
  rw [buildContainer_eq]
  simp only [List.length_map]

theorem batchRun_step (n t : Nat) (items : List InItem) (hn : 0 < n)
    (hc : n ≤ items.length) :
    batchRun n t items =
      (buildContainer t (items.take n) :: (batchRun n t (items.drop n)).1,
        (batchRun n t (items.drop n)).2) := by
  rw [batchRun]
  simp only [dif_pos (And.intro hn hc)]

theorem batchRun_last (n t : Nat) (items : List InItem)
    (hc : ¬(0 < n ∧ n ≤ items.length)) :
    batchRun n t items = ([], buildContainer t items) := by
  rw [batchRun]
  simp only [dif_neg hc]

theorem batchRun_spec (n t : Nat) (hn : 0 < n) : ∀ (k : Nat)
    (items : List InItem), items.length ≤ k →
    (batchRun n t items).1.length = items.length / n ∧
    (∀ j, j < items.length / n →
      (batchRun n t items).1[j]? =
        some (buildContainer t ((items.drop (j * n)).take n))) ∧
    (batchRun n t items).2 =
      buildContainer t (items.drop (items.length / n * n)) ∧
    (batchRun n t items).2.toc.length = items.length % n := by
  intro k
  induction k with
  | zero =>
      intro items hlen
      have hemp : items = [] := List.eq_nil_of_length_eq_zero (by omega)
      subst hemp
      have h0 : (0 : Nat) / n = 0 := Nat.div_eq_of_lt hn
      rw [batchRun_last n t [] (by simp; omega)]
      refine ⟨by simp [h0], by simp [h0], by simp [h0], ?_⟩
      rw [buildContainer_toc_length]
      simp [Nat.zero_mod]
  | succ k ih =>
      intro items hlen
      by_cases hc : n ≤ items.length
      · have hdrop : (items.drop n).length = items.length - n := by
          simp [List.length_drop]
        have hih := ih (items.drop n) (by omega)
        have hdiv : items.length / n = (items.length - n) / n + 1 :=
          Nat.div_eq_sub_div hn hc
        rw [batchRun_step n t items hn hc]
        refine ⟨?_, ?_, ?_, ?_⟩
        · simp only [List.length_cons, hih.1, hdrop, hdiv]
        · intro j hj
          match j with
          | 0 =>
              simp only [List.getElem?_cons_zero, Nat.zero_mul,
                List.drop_zero]
          | j' + 1 =>
              have hj' : j' < (items.drop n).length / n := by
                rw [hdrop]
                omega
              have := hih.2.1 j' hj'
              simp only [List.getElem?_cons_succ, this, List.drop_drop]
              have harith : n + j' * n = (j' + 1) * n := by ring
              rw [harith]
        · rw [hih.2.2.1, List.drop_drop, hdrop, hdiv]
          have harith : n + (items.length - n) / n * n =
              ((items.length - n) / n + 1) * n := by ring
          rw [harith]
        · rw [hih.2.2.2, hdrop]
          rw [Nat.mod_eq_sub_mod hc]
      · have hlt : items.length < n := by omega
        have h0 : items.length / n = 0 := Nat.div_eq_of_lt hlt
        rw [batchRun_last n t items (by omega)]
        refine ⟨by simp [h0], by simp [h0], by simp [h0], ?_⟩
        rw [buildContainer_toc_length, Nat.mod_eq_of_lt hlt]

/-- C3: for a positive threshold `n`, running the batch writer loop over a
finite inbound stream persists exactly one container per `n` consecutive
items — `length / n` containers in all, the `j`-th built from items
`j*n .. j*n + n` in dequeue order with exactly `n` entries — while the
remaining `length mod n` items sit in the new, not-yet-flushed container. -/
theorem c3_batch_writer (n t : Nat) (items : List InItem) (hn : 0 < n) :
    (batchRun n t items).1.length = items.length / n ∧
    (∀ j, j < items.length / n →
      (batchRun n t items).1[j]? =
        some (buildContainer t ((items.drop (j * n)).take n)) ∧
      (buildContainer t ((items.drop (j * n)).take n)).toc.length = n) ∧
    (batchRun n t items).2 =
      buildContainer t (items.drop (items.length / n * n)) ∧
    (batchRun n t items).2.toc.length = items.length % n := by
  have h := batchRun_spec n t hn items.length items le_rfl
  refine ⟨h.1, ?_, h.2.2.1, h.2.2.2⟩
  intro j hj
  refine ⟨h.2.1 j hj, ?_⟩
  rw [buildContainer_toc_length]
  have hle : (j + 1) * n ≤ items.length / n * n :=
    Nat.mul_le_mul_right n hj
  have hmul : items.length / n * n ≤ items.length := Nat.div_mul_le_self _ _
  have hexp : (j + 1) * n = j * n + n := by ring
  simp only [List.length_take, List.length_drop]
  omega

/-- Witness for C3: threshold 2 over a five-item stream gives two flushed
containers and one leftover entry. -/
theorem c3_batch_writer_witness :
    (batchRun 2 9 [(0, ([1], 0)), (1, ([2], 0)), (2, ([3], 0)),
        (3, ([4], 0)), (4, ([5], 0))]).1.length = 2 ∧
      (batchRun 2 9 [(0, ([1], 0)), (1, ([2], 0)), (2, ([3], 0)),
        (3, ([4], 0)), (4, ([5], 0))]).2.toc.length = 1 := by
  have h := c3_batch_writer 2 9 [(0, ([1], 0)), (1, ([2], 0)), (2, ([3], 0)),
    (3, ([4], 0)), (4, ([5], 0))] (by decide)
  exact ⟨h.1, h.2.2.2⟩

/-! ### Claim C9 -/

theorem readU32_inv (bs : List Nat) (v : Nat) (rest : List Nat)
    (h : readU32 bs = .ok (v, rest)) (hb : ∀ b ∈ bs, b < 256) :
    bs = le32 v ++ rest ∧ v < 4294967296 := by
  match bs with
  | [] => exact Except.noConfusion h
  | [b0] => exact Except.noConfusion h
  | [b0, b1] => exact Except.noConfusion h
  | [b0, b1, b2] => exact Except.noConfusion h
  | b0 :: b1 :: b2 :: b3 :: r =>
      simp only [readU32, Except.ok.injEq, Prod.mk.injEq] at h
      obtain ⟨hv, hr⟩ := h
      have h0 := hb b0 (by simp)
      have h1 := hb b1 (by simp)
      have h2 := hb b2 (by simp)
      have h3 := hb b3 (by simp)
      subst hr
      constructor
      · rw [← hv, le32_val b0 b1 b2 b3 h0 h1 h2 h3]
        rfl
      · omega

theorem readU32s_inv (n : Nat) (bs : List Nat) (vs : List Nat)
    (rest : List Nat) (h : readU32s n bs = .ok (vs, rest))
    (hb : ∀ b ∈ bs, b < 256) :
    bs = u32sBytes vs ++ rest ∧ vs.length = n ∧
      ∀ v ∈ vs, v < 4294967296 := by
  induction n generalizing bs vs with
  | zero =>
      simp only [readU32s, Except.ok.injEq, Prod.mk.injEq] at h
      obtain ⟨hv, hr⟩ := h
      subst hv hr
      exact ⟨rfl, rfl, by simp⟩
  | succ n ih =>
      simp only [readU32s] at h
      cases h1 : readU32 bs with
      | error e => simp only [h1] at h; exact Except.noConfusion h
      | ok p =>
          obtain ⟨v, bs1⟩ := p
          simp only [h1] at h
          cases h2 : readU32s n bs1 with
          | error e => simp only [h2] at h; exact Except.noConfusion h
          | ok q =>
              obtain ⟨vs1, rest1⟩ := q
              simp only [h2] at h
              simp only [Except.ok.injEq, Prod.mk.injEq] at h
              obtain ⟨hvs, hr⟩ := h
              subst hvs hr
              obtain ⟨hbs, hvlt⟩ := readU32_inv bs v bs1 h1 hb
              have hb1 : ∀ b ∈ bs1, b < 256 := fun b hmem =>
                hb b (hbs ▸ List.mem_append_right _ hmem)
              obtain ⟨hbs1, hlen, hlt⟩ := ih bs1 vs1 h2 hb1
              refine ⟨?_, by simp [hlen], ?_⟩
              · rw [hbs, hbs1, u32sBytes, List.append_assoc]
              · intro x hx
                rcases List.mem_cons.mp hx with rfl | hx
                · exact hvlt
                · exact hlt x hx

theorem drop_prefix20 (a b c d e : Nat) (u rest : List Nat) :
    (le32 a ++ le32 b ++ le32 c ++ le32 d ++ le32 e ++ u ++ rest).drop 20 =
      u ++ rest := by
  have hassoc : le32 a ++ le32 b ++ le32 c ++ le32 d ++ le32 e ++ u ++
      rest = (le32 a ++ le32 b ++ le32 c ++ le32 d ++ le32 e) ++
      (u ++ rest) := by
    simp [List.append_assoc]
  have hlen : (le32 a ++ le32 b ++ le32 c ++ le32 d ++ le32 e).length = 20 := by
    simp [List.length_append, le32_length]
  rw [hassoc, ← hlen, List.drop_left]

theorem take_u32s11 (vs : List Nat) (h : vs.length = 11) (rest : List Nat) :
    (u32sBytes vs ++ rest).take 44 = u32sBytes vs := by
  have hlen : (u32sBytes vs).length = 44 := by
    rw [u32sBytes_length, h]
  rw [← hlen, List.take_left]

/-- Every byte written by `save_to_file` is a byte (given the payload is
made of bytes). -/
theorem save_to_file_lt (c : Container) (hd : ∀ b ∈ c.data, b < 256) :
    ∀ b ∈ c.save_to_file, b < 256 := by
  intro b hmem
  simp only [Container.save_to_file, FileHeader.as_bytes, FileHeader.new,
    DataHeader.as_bytes, List.append_assoc, List.mem_append] at hmem
  casesm* _ ∨ _
  all_goals
    first
      | exact le32_lt _ b (by assumption)
      | exact u32sBytes_lt _ b (by assumption)
      | exact tocBytes_lt _ b (by assumption)
      | exact hd b (by assumption)

/-- Decoding success decomposes the input: the stream is the magic, then
the stored header fields as read into the container, then the rest. -/
theorem from_file_inv (bs : List Nat) (c : Container)
    (hb : ∀ b ∈ bs, b < 256) (h : Container.from_file bs = .ok c) :
    ∃ B, bs = le32 MAGIC ++ le32 c.file_header.checksum ++
      le32 c.data_header.version ++ le32 c.data_header.type_id ++
      le32 c.data_header.toc_size ++ u32sBytes c.data_header.reserved ++ B ∧
      c.data_header.reserved.length = 11 := by
  unfold Container.from_file at h
  cases h1 : readU32 bs with
  | error e => simp only [h1] at h; exact Except.noConfusion h
  | ok p =>
    obtain ⟨m, bs1⟩ := p
    simp only [h1] at h
    by_cases hm : m ≠ MAGIC
    · rw [if_pos hm] at h
      exact Except.noConfusion h
    · rw [if_neg hm] at h
      push_neg at hm
      cases h2 : readU32 bs1 with
      | error e => simp only [h2] at h; exact Except.noConfusion h
      | ok p =>
        obtain ⟨chk, bs2⟩ := p
        simp only [h2] at h
        cases h3 : readU32 bs2 with
        | error e => simp only [h3] at h; exact Except.noConfusion h
        | ok p =>
          obtain ⟨ver, bs3⟩ := p
          simp only [h3] at h
          cases h4 : readU32 bs3 with
          | error e => simp only [h4] at h; exact Except.noConfusion h
          | ok p =>
            obtain ⟨ty, bs4⟩ := p
            simp only [h4] at h
            cases h5 : readU32 bs4 with
            | error e => simp only [h5] at h; exact Except.noConfusion h
            | ok p =>
              obtain ⟨s, bs5⟩ := p
              simp only [h5] at h
              cases h6 : readU32s 11 bs5 with
              | error e => simp only [h6] at h; exact Except.noConfusion h
              | ok p =>
                obtain ⟨rsv, bs6⟩ := p
                simp only [h6] at h
                cases h7 : readToc s bs6 with
                | error e => simp only [h7] at h; exact Except.noConfusion h
                | ok p =>
                  obtain ⟨toc, rest⟩ := p
                  simp only [h7] at h
                  by_cases hg : (Container.mk (FileHeader.new chk)
                      (DataHeader.new ver ty s rsv) toc rest).checksum ≠ chk
                  · rw [if_pos hg] at h
                    exact Except.noConfusion h
                  · rw [if_neg hg] at h
                    injection h with hc
                    subst hc
                    obtain ⟨e1, l1⟩ := readU32_inv bs m bs1 h1 hb
                    have hb1 : ∀ b ∈ bs1, b < 256 := fun b hx =>
                      hb b (e1 ▸ List.mem_append_right _ hx)
                    obtain ⟨e2, l2⟩ := readU32_inv bs1 chk bs2 h2 hb1
                    have hb2 : ∀ b ∈ bs2, b < 256 := fun b hx =>
                      hb1 b (e2 ▸ List.mem_append_right _ hx)
                    obtain ⟨e3, l3⟩ := readU32_inv bs2 ver bs3 h3 hb2
                    have hb3 : ∀ b ∈ bs3, b < 256 := fun b hx =>
                      hb2 b (e3 ▸ List.mem_append_right _ hx)
                    obtain ⟨e4, l4⟩ := readU32_inv bs3 ty bs4 h4 hb3
                    have hb4 : ∀ b ∈ bs4, b < 256 := fun b hx =>
                      hb3 b (e4 ▸ List.mem_append_right _ hx)
                    obtain ⟨e5, l5⟩ := readU32_inv bs4 s bs5 h5 hb4
                    have hb5 : ∀ b ∈ bs5, b < 256 := fun b hx =>
                      hb4 b (e5 ▸ List.mem_append_right _ hx)
                    obtain ⟨e6, llen, _⟩ := readU32s_inv 11 bs5 rsv bs6 h6 hb5
                    refine ⟨bs6, ?_, llen⟩
                    rw [e1, hm, e2, e3, e4, e5, e6]
                    simp [FileHeader.new, DataHeader.new,
                      List.append_assoc]

/-- C9 (amended): decoding stores the reserved field exactly as read from
the input (bytes 20..63), but re-encoding always writes the 44-byte zero
constant back, so the input's reserved bytes are reproduced exactly when
they are zero — as they are in every stream `save_to_file` produces. -/
theorem c9_reserved (bs : List Nat) (c : Container)
    (hb : ∀ b ∈ bs, b < 256) (h : Container.from_file bs = .ok c) :
    u32sBytes c.data_header.reserved = (bs.drop 20).take 44 ∧
    (c.save_to_file.drop 20).take 44 = List.replicate 44 0 ∧
    ((bs.drop 20).take 44 = List.replicate 44 0 →
      (c.save_to_file.drop 20).take 44 = (bs.drop 20).take 44) := by
  obtain ⟨B, hdec, hlen⟩ := from_file_inv bs c hb h
  have h1 : (bs.drop 20).take 44 = u32sBytes c.data_header.reserved := by
    rw [hdec, drop_prefix20, take_u32s11 _ hlen]
  have h2 : (c.save_to_file.drop 20).take 44 = List.replicate 44 0 := by
    have hsave : c.save_to_file =
        le32 MAGIC ++ le32 c.checksum ++ le32 VERSION ++
          le32 c.data_header.type_id ++
          le32 (c.toc.length % 4294967296) ++
          u32sBytes RESERVED ++ (tocBytes c.toc ++ c.data) := by
      simp only [Container.save_to_file, FileHeader.new, FileHeader.as_bytes,
        Container.get_data_header, DataHeader.new, DataHeader.as_bytes,
        List.append_assoc]
    rw [hsave, drop_prefix20, take_u32s11 _ RESERVED_length,
      u32sBytes_RESERVED]
  exact ⟨h1.symm, h2, fun hz => by rw [h2, hz]⟩

/-- Witness for C9 on the decode of a freshly written empty container. -/
theorem c9_reserved_witness :
    u32sBytes (Container.mk (FileHeader.new (Container.new 5).checksum)
        (DataHeader.new VERSION 5 0 RESERVED) [] []).data_header.reserved =
      (((Container.new 5).save_to_file.drop 20).take 44) ∧
    ((Container.mk (FileHeader.new (Container.new 5).checksum)
        (DataHeader.new VERSION 5 0 RESERVED) []
        []).save_to_file.drop 20).take 44 = List.replicate 44 0 := by
  have h := c9_reserved (Container.new 5).save_to_file
    (Container.mk (FileHeader.new (Container.new 5).checksum)
      (DataHeader.new VERSION 5 0 RESERVED) [] [])
    (save_to_file_lt _ (by simp [Container.new]))
    (from_file_save_to_file (Container.new 5) (by decide) (by decide)
      (by simp [Container.new]))
  exact ⟨h.1, h.2.1⟩

/-- Counterexample to C9 as stated: a stream whose reserved region is
nonzero (valid, because the checksum is computed over the regenerated
constant header) decodes successfully storing those reserved words, but
re-encoding writes the 44 zero bytes back, not the bytes read. -/
theorem c9_counterexample :
    Container.from_file
        (le32 MAGIC ++ le32 (crc32 (List.replicate 56 0)) ++ le32 0 ++
          le32 0 ++ le32 0 ++ u32sBytes (1 :: List.replicate 10 0) ++ []) =
      Except.ok (Container.mk
        (FileHeader.new (crc32 (List.replicate 56 0)))
        (DataHeader.new 0 0 0 (1 :: List.replicate 10 0)) [] []) ∧
    ((le32 MAGIC ++ le32 (crc32 (List.replicate 56 0)) ++ le32 0 ++
        le32 0 ++ le32 0 ++ u32sBytes (1 :: List.replicate 10 0) ++
        []).drop 20).take 44 = 1 :: List.replicate 43 0 ∧
    (((Container.mk (FileHeader.new (crc32 (List.replicate 56 0)))
        (DataHeader.new 0 0 0 (1 :: List.replicate 10 0)) []
        []).save_to_file.drop 20).take 44) = List.replicate 44 0 ∧
    (1 :: List.replicate 43 0 : List Nat) ≠ List.replicate 44 0 := by
  have hchk : crc32 (List.replicate 56 0) < 4294967296 := xor32_lt _ _
  refine ⟨?_, ?_, ?_, by decide⟩
  · rw [from_file_generic (crc32 (List.replicate 56 0)) 0 0 0
      (1 :: List.replicate 10 0) [] hchk (by decide) (by decide) (by decide)
      (by decide) (by decide)]
    have hcs : (Container.mk
        (FileHeader.new (crc32 (List.replicate 56 0)))
        (DataHeader.new 0 0 0 (1 :: List.replicate 10 0)) [] []).checksum =
        crc32 (List.replicate 56 0) := by
      rw [checksum_eq_crc32]
      congr 1
    simp only [readToc, hcs, ne_eq, not_true_eq_false, if_false, ite_false]
  · rw [drop_prefix20, take_u32s11 _ (by decide)]
    decide
  · have hsave : (Container.mk (FileHeader.new (crc32 (List.replicate 56 0)))
        (DataHeader.new 0 0 0 (1 :: List.replicate 10 0)) []
        []).save_to_file =
        le32 MAGIC ++
          le32 (Container.mk (FileHeader.new (crc32 (List.replicate 56 0)))
            (DataHeader.new 0 0 0 (1 :: List.replicate 10 0)) []
            []).checksum ++ le32 VERSION ++ le32 0 ++ le32 0 ++
          u32sBytes RESERVED ++ ([] ++ []) := by
      simp only [Container.save_to_file, FileHeader.new, FileHeader.as_bytes,
        Container.get_data_header, DataHeader.new, DataHeader.as_bytes,
        List.append_assoc, tocBytes, List.length_nil, Nat.zero_mod]
    rw [hsave, drop_prefix20, take_u32s11 _ RESERVED_length,
      u32sBytes_RESERVED]

/-! ### Claim C2 -/

theorem le64_val (b0 b1 b2 b3 b4 b5 b6 b7 : Nat) (h0 : b0 < 256)
    (h1 : b1 < 256) (h2 : b2 < 256) (h3 : b3 < 256) (h4 : b4 < 256)
    (h5 : b5 < 256) (h6 : b6 < 256) (h7 : b7 < 256) :
    le64 (b0 + 256 * b1 + 65536 * b2 + 16777216 * b3 + 4294967296 * b4 +
        1099511627776 * b5 + 281474976710656 * b6 +
        72057594037927936 * b7) =
      [b0, b1, b2, b3, b4, b5, b6, b7] := by
  simp only [le64, List.cons.injEq, and_true]
  refine ⟨?_, ?_, ?_, ?_, ?_, ?_, ?_, ?_⟩ <;> omega

theorem le32_inj (x y : Nat) (hx : x < 4294967296) (hy : y < 4294967296)
    (h : le32 x = le32 y) : x = y := by
  simp only [le32, List.cons.injEq, and_true] at h
  omega

theorem readU32_error (bs : List Nat) (e : DecodeError)
    (h : readU32 bs = .error e) : e = .eofError := by
  match bs with
  | [] => injection h with he; exact he.symm
  | [b0] => injection h with he; exact he.symm
  | [b0, b1] => injection h with he; exact he.symm
  | [b0, b1, b2] => injection h with he; exact he.symm
  | b0 :: b1 :: b2 :: b3 :: r => exact Except.noConfusion h

theorem readU64_error (bs : List Nat) (e : DecodeError)
    (h : readU64 bs = .error e) : e = .eofError := by
  match bs with
  | [] => injection h with he; exact he.symm
  | [b0] => injection h with he; exact he.symm
  | [b0, b1] => injection h with he; exact he.symm
  | [b0, b1, b2] => injection h with he; exact he.symm
  | [b0, b1, b2, b3] => injection h with he; exact he.symm
  | [b0, b1, b2, b3, b4] => injection h with he; exact he.symm
  | [b0, b1, b2, b3, b4, b5] => injection h with he; exact he.symm
  | [b0, b1, b2, b3, b4, b5, b6] => injection h with he; exact he.symm
  | b0 :: b1 :: b2 :: b3 :: b4 :: b5 :: b6 :: b7 :: r =>
      exact Except.noConfusion h

theorem readU64_inv (bs : List Nat) (v : Nat) (rest : List Nat)
    (h : readU64 bs = .ok (v, rest)) (hb : ∀ b ∈ bs, b < 256) :
    bs = le64 v ++ rest ∧ v < 18446744073709551616 := by
  match bs with
  | [] => exact Except.noConfusion h
  | [b0] => exact Except.noConfusion h
  | [b0, b1] => exact Except.noConfusion h
  | [b0, b1, b2] => exact Except.noConfusion h
  | [b0, b1, b2, b3] => exact Except.noConfusion h
  | [b0, b1, b2, b3, b4] => exact Except.noConfusion h
  | [b0, b1, b2, b3, b4, b5] => exact Except.noConfusion h
  | [b0, b1, b2, b3, b4, b5, b6] => exact Except.noConfusion h
  | b0 :: b1 :: b2 :: b3 :: b4 :: b5 :: b6 :: b7 :: r =>
      simp only [readU64, Except.ok.injEq, Prod.mk.injEq] at h
      obtain ⟨hv, hr⟩ := h
      have g0 := hb b0 (by simp)
      have g1 := hb b1 (by simp)
      have g2 := hb b2 (by simp)
      have g3 := hb b3 (by simp)
      have g4 := hb b4 (by simp)
      have g5 := hb b5 (by simp)
      have g6 := hb b6 (by simp)
      have g7 := hb b7 (by simp)
      subst hr
      constructor
      · rw [← hv, le64_val b0 b1 b2 b3 b4 b5 b6 b7 g0 g1 g2 g3 g4 g5 g6 g7]
        rfl
      · omega

theorem readToc_error (n : Nat) (bs : List Nat) (e : DecodeError)
    (h : readToc n bs = .error e) : e = .eofError := by
  induction n generalizing bs e with
  | zero => exact Except.noConfusion h
  | succ n ih =>
      simp only [readToc] at h
      cases h1 : readU32 bs with
      | error e1 =>
          simp only [h1] at h
          injection h with he
          exact he ▸ readU32_error bs e1 h1
      | ok p =>
          obtain ⟨w, bs1⟩ := p
          simp only [h1] at h
          cases h2 : readU32 bs1 with
          | error e1 =>
              simp only [h2] at h
              injection h with he
              exact he ▸ readU32_error bs1 e1 h2
          | ok p =>
              obtain ⟨sz, bs2⟩ := p
              simp only [h2] at h
              cases h3 : readU64 bs2 with
              | error e1 =>
                  simp only [h3] at h
                  injection h with he
                  exact he ▸ readU64_error bs2 e1 h3
              | ok p =>
                  obtain ⟨ts, bs3⟩ := p
                  simp only [h3] at h
                  cases h4 : readToc n bs3 with
                  | error e1 =>
                      simp only [h4] at h
                      injection h with he
                      exact he ▸ ih bs3 e1 h4
                  | ok p =>
                      obtain ⟨toc1, rest1⟩ := p
                      simp only [h4] at h
                      exact Except.noConfusion h

theorem readToc_inv (n : Nat) (bs : List Nat) (toc : List TocEntry)
    (rest : List Nat) (h : readToc n bs = .ok (toc, rest))
    (hb : ∀ b ∈ bs, b < 256) :
    bs = tocBytes toc ++ rest ∧ toc.length = n := by
  induction n generalizing bs toc with
  | zero =>
      simp only [readToc, Except.ok.injEq, Prod.mk.injEq] at h
      obtain ⟨ht, hr⟩ := h
      subst ht hr
      exact ⟨rfl, rfl⟩
  | succ n ih =>
      simp only [readToc] at h
      cases h1 : readU32 bs with
      | error e => simp only [h1] at h; exact Except.noConfusion h
      | ok p =>
        obtain ⟨w, bs1⟩ := p
        simp only [h1] at h
        cases h2 : readU32 bs1 with
        | error e => simp only [h2] at h; exact Except.noConfusion h
        | ok p =>
          obtain ⟨sz, bs2⟩ := p
          simp only [h2] at h
          cases h3 : readU64 bs2 with
          | error e => simp only [h3] at h; exact Except.noConfusion h
          | ok p =>
            obtain ⟨ts, bs3⟩ := p
            simp only [h3] at h
            cases h4 : readToc n bs3 with
            | error e => simp only [h4] at h; exact Except.noConfusion h
            | ok p =>
              obtain ⟨toc1, rest1⟩ := p
              simp only [h4, Except.ok.injEq, Prod.mk.injEq] at h
              obtain ⟨ht, hr⟩ := h
              subst ht hr
              obtain ⟨e1, _⟩ := readU32_inv bs w bs1 h1 hb
              have hb1 : ∀ b ∈ bs1, b < 256 := fun b hx =>
                hb b (e1 ▸ List.mem_append_right _ hx)
              obtain ⟨e2, _⟩ := readU32_inv bs1 sz bs2 h2 hb1
              have hb2 : ∀ b ∈ bs2, b < 256 := fun b hx =>
                hb1 b (e2 ▸ List.mem_append_right _ hx)
              obtain ⟨e3, _⟩ := readU64_inv bs2 ts bs3 h3 hb2
              have hb3 : ∀ b ∈ bs3, b < 256 := fun b hx =>
                hb2 b (e3 ▸ List.mem_append_right _ hx)
              obtain ⟨e4, hlen⟩ := ih bs3 toc1 h4 hb3
              constructor
              · rw [e1, e2, e3, e4, tocBytes, TocEntry.as_bytes,
                  TocEntry.new_with_timestamp]
                simp [List.append_assoc]
              · simp [hlen]

theorem set_ne (l : List Nat) (j v w : Nat) (hj : l[j]? = some w)
    (hne : v ≠ w) : l.set j v ≠ l := by
  intro he
  have hlt : j < l.length := by
    by_contra hge
    rw [List.getElem?_eq_none (by omega)] at hj
    exact Option.noConfusion hj
  have h1 : (l.set j v)[j]? = some v := List.getElem?_set_self hlt
  rw [he, hj] at h1
  exact hne (Option.some.inj h1).symm

theorem set_lt (l : List Nat) (j v : Nat) (hv : v < 256)
    (hl : ∀ b ∈ l, b < 256) : ∀ b ∈ l.set j v, b < 256 := fun b hb =>
  (List.mem_or_eq_of_mem_set hb).elim (hl b) fun h => h ▸ hv

/-- Overwriting one byte of a 4-byte little-endian word yields the
little-endian image of another `u32` value; if the byte really changed,
the value changed. -/
theorem set_le32 (x j v : Nat) (hj : j < 4) (hv : v < 256)
    (hx : x < 4294967296) :
    ∃ y, (le32 x).set j v = le32 y ∧ y < 4294967296 ∧
      ((le32 x)[j]? ≠ some v → y ≠ x) := by
  have m0 : x % 256 < 256 := Nat.mod_lt _ (by norm_num)
  have m1 : x / 256 % 256 < 256 := Nat.mod_lt _ (by norm_num)
  have m2 : x / 65536 % 256 < 256 := Nat.mod_lt _ (by norm_num)
  have m3 : x / 16777216 % 256 < 256 := Nat.mod_lt _ (by norm_num)
  interval_cases j
  · refine ⟨v + 256 * (x / 256 % 256) + 65536 * (x / 65536 % 256) +
      16777216 * (x / 16777216 % 256), ?_, by omega, ?_⟩
    · rw [le32_val _ _ _ _ hv m1 m2 m3]
      rfl
    · intro hb he
      apply hb
      simp only [le32, List.getElem?_cons_zero, Option.some.injEq]
      omega
  · refine ⟨x % 256 + 256 * v + 65536 * (x / 65536 % 256) +
      16777216 * (x / 16777216 % 256), ?_, by omega, ?_⟩
    · rw [le32_val _ _ _ _ m0 hv m2 m3]
      rfl
    · intro hb he
      apply hb
      simp only [le32, List.getElem?_cons_succ, List.getElem?_cons_zero,
        Option.some.injEq]
      omega
  · refine ⟨x % 256 + 256 * (x / 256 % 256) + 65536 * v +
      16777216 * (x / 16777216 % 256), ?_, by omega, ?_⟩
    · rw [le32_val _ _ _ _ m0 m1 hv m3]
      rfl
    · intro hb he
      apply hb
      simp only [le32, List.getElem?_cons_succ, List.getElem?_cons_zero,
        Option.some.injEq]
      omega
  · refine ⟨x % 256 + 256 * (x / 256 % 256) + 65536 * (x / 65536 % 256) +
      16777216 * v, ?_, by omega, ?_⟩
    · rw [le32_val _ _ _ _ m0 m1 m2 hv]
      rfl
    · intro hb he
      apply hb
      simp only [le32, List.getElem?_cons_succ, List.getElem?_cons_zero,
        Option.some.injEq]
      omega

/-- Overwriting one byte of a serialized `u32` array yields the image of
another array of the same length. -/
theorem set_u32sBytes (vs : List Nat) (j v : Nat) (hj : j < 4 * vs.length)
    (hv : v < 256) (hvs : ∀ x ∈ vs, x < 4294967296) :
    ∃ vs2, (u32sBytes vs).set j v = u32sBytes vs2 ∧
      vs2.length = vs.length ∧ ∀ x ∈ vs2, x < 4294967296 := by
  induction vs generalizing j with
  | nil => simp at hj
  | cons x vs ih =>
      by_cases hj4 : j < 4
      · obtain ⟨y, hy, hylt, _⟩ := set_le32 x j v hj4 hv
          (hvs x (List.mem_cons_self x vs))
        refine ⟨y :: vs, ?_, by simp, ?_⟩
        · rw [u32sBytes, List.set_append_left j v
            (by rw [le32_length]; omega), hy]
          rfl
        · intro z hz
          rcases List.mem_cons.mp hz with rfl | hz
          · exact hylt
          · exact hvs z (List.mem_cons_of_mem x hz)
      · obtain ⟨vs2, hvs2, hlen2, hlt2⟩ := ih (j - 4)
          (by simp at hj; omega)
          fun z hz => hvs z (List.mem_cons_of_mem x hz)
        refine ⟨x :: vs2, ?_, by simp [hlen2], ?_⟩
        · rw [u32sBytes, List.set_append_right j v
            (by rw [le32_length]; omega), le32_length, hvs2]
          rfl
        · intro z hz
          rcases List.mem_cons.mp hz with rfl | hz
          · exact hvs z (List.mem_cons_self z vs)
          · exact hlt2 z hz

/-- The written stream, fully right-associated. -/
theorem save_decomp_r (c : Container) (hlen : c.toc.length < 4294967296) :
    c.save_to_file = le32 MAGIC ++ (le32 c.checksum ++ (le32 VERSION ++
      (le32 c.data_header.type_id ++ (le32 c.toc.length ++
        (u32sBytes RESERVED ++ (tocBytes c.toc ++ c.data)))))) := by
  simp only [Container.save_to_file, FileHeader.new, FileHeader.as_bytes,
    Container.get_data_header, DataHeader.new, DataHeader.as_bytes,
    Nat.mod_eq_of_lt hlen, List.append_assoc]

theorem save_length_eq (c : Container) (hlen : c.toc.length < 4294967296) :
    c.save_to_file.length = 64 + (tocBytes c.toc ++ c.data).length := by
  rw [save_decomp_r c hlen]
  simp only [List.length_append, le32_length, u32sBytes_length,
    RESERVED_length]
  omega

/-- Flipping a byte of the stored checksum field always fails the
integrity check: the recomputed checksum is unchanged, the stored one no
longer matches it. -/
theorem c2_region_chk (c : Container) (hwf : WF c) (i v2 : Nat)
    (hv : v2 < 256) (hne : c.save_to_file[i]? ≠ some v2)
    (h4 : 4 ≤ i) (h8 : i < 8) :
    Container.from_file (c.save_to_file.set i v2) =
      .error .integrityError := by
  obtain ⟨hty, hlen, hent, _⟩ := hwf
  have hD := save_decomp_r c hlen
  have hEi : c.save_to_file[i]? = (le32 c.checksum)[i - 4]? := by
    rw [hD, List.getElem?_append_right (by simp only [le32_length]; omega),
      List.getElem?_append_left (by simp only [le32_length]; omega)]
    simp only [le32_length]
  obtain ⟨chk2, hset32, hlt2, hne2⟩ := set_le32 c.checksum (i - 4) v2
    (by omega) hv (checksum_lt c)
  have hner : chk2 ≠ c.checksum := hne2 (by rw [← hEi]; exact hne)
  have hE2 : c.save_to_file.set i v2 =
      le32 MAGIC ++ le32 chk2 ++ le32 VERSION ++
        le32 c.data_header.type_id ++ le32 c.toc.length ++
        u32sBytes RESERVED ++ (tocBytes c.toc ++ c.data) := by
    rw [hD, List.set_append_right i v2 (by simp only [le32_length]; omega),
      le32_length, List.set_append_left (i - 4) v2
        (by simp only [le32_length]; omega), hset32]
    simp [List.append_assoc]
  rw [hE2, from_file_generic chk2 VERSION c.data_header.type_id
    c.toc.length RESERVED (tocBytes c.toc ++ c.data) hlt2 (by decide) hty
    hlen RESERVED_length RESERVED_lt]
  have hcs : (Container.mk (FileHeader.new chk2)
      (DataHeader.new VERSION c.data_header.type_id c.toc.length RESERVED)
      c.toc c.data).checksum = c.checksum :=
    checksum_congr _ c rfl rfl rfl
  simp only [readToc_tocBytes c.toc c.data hent, hcs, ne_eq]
  rw [if_pos (fun he => hner he.symm)]

/-- Flipping a byte of the version field or of the reserved words goes
undetected: the checksum is recomputed over the regenerated constant
header, so decoding succeeds. -/
theorem c2_region_undetected (c : Container) (hwf : WF c) (i v2 : Nat)
    (hv : v2 < 256)
    (hr : (8 ≤ i ∧ i < 12) ∨ (20 ≤ i ∧ i < 64)) :
    ∃ c2, Container.from_file (c.save_to_file.set i v2) = .ok c2 := by
  obtain ⟨hty, hlen, hent, _⟩ := hwf
  have hD := save_decomp_r c hlen
  rcases hr with ⟨h8, h12⟩ | ⟨h20, h64⟩
  · obtain ⟨ver2, hset32, hlt2, _⟩ := set_le32 VERSION (i - 8) v2
      (by omega) hv (by decide)
    have hE2 : c.save_to_file.set i v2 =
        le32 MAGIC ++ le32 c.checksum ++ le32 ver2 ++
          le32 c.data_header.type_id ++ le32 c.toc.length ++
          u32sBytes RESERVED ++ (tocBytes c.toc ++ c.data) := by
      rw [hD,
        List.set_append_right i v2 (by simp only [le32_length]; omega),
        le32_length,
        List.set_append_right (i - 4) v2
          (by simp only [le32_length]; omega),
        le32_length,
        List.set_append_left (i - 4 - 4) v2
          (by simp only [le32_length]; omega)]
      have hidx : i - 4 - 4 = i - 8 := by omega
      rw [hidx, hset32]
      simp [List.append_assoc]
    refine ⟨Container.mk (FileHeader.new c.checksum)
      (DataHeader.new ver2 c.data_header.type_id c.toc.length RESERVED)
      c.toc c.data, ?_⟩
    rw [hE2, from_file_generic c.checksum ver2 c.data_header.type_id
      c.toc.length RESERVED (tocBytes c.toc ++ c.data) (checksum_lt c)
      hlt2 hty hlen RESERVED_length RESERVED_lt]
    have hcs : (Container.mk (FileHeader.new c.checksum)
        (DataHeader.new ver2 c.data_header.type_id c.toc.length RESERVED)
        c.toc c.data).checksum = c.checksum :=
      checksum_congr _ c rfl rfl rfl
    simp only [readToc_tocBytes c.toc c.data hent]
    rw [if_neg (fun h => h hcs)]
  · obtain ⟨rsv2, hsetU, hlen2, hlt2⟩ := set_u32sBytes RESERVED (i - 20) v2
      (by rw [RESERVED_length]; omega) hv RESERVED_lt
    have hE2 : c.save_to_file.set i v2 =
        le32 MAGIC ++ le32 c.checksum ++ le32 VERSION ++
          le32 c.data_header.type_id ++ le32 c.toc.length ++
          u32sBytes rsv2 ++ (tocBytes c.toc ++ c.data) := by
      rw [hD,
        List.set_append_right i v2 (by simp only [le32_length]; omega),
        le32_length,
        List.set_append_right (i - 4) v2
          (by simp only [le32_length]; omega),
        le32_length,
        List.set_append_right (i - 4 - 4) v2
          (by simp only [le32_length]; omega),
        le32_length,
        List.set_append_right (i - 4 - 4 - 4) v2
          (by simp only [le32_length]; omega),
        le32_length,
        List.set_append_right (i - 4 - 4 - 4 - 4) v2
          (by simp only [le32_length]; omega),
        le32_length,
        List.set_append_left (i - 4 - 4 - 4 - 4 - 4) v2
          (by rw [u32sBytes_length, RESERVED_length]; omega)]
      have hidx : i - 4 - 4 - 4 - 4 - 4 = i - 20 := by omega
      rw [hidx, hsetU]
      simp [List.append_assoc]
    refine ⟨Container.mk (FileHeader.new c.checksum)
      (DataHeader.new VERSION c.data_header.type_id c.toc.length rsv2)
      c.toc c.data, ?_⟩
    rw [hE2, from_file_generic c.checksum VERSION c.data_header.type_id
      c.toc.length rsv2 (tocBytes c.toc ++ c.data) (checksum_lt c)
      (by decide) hty hlen (by rw [hlen2, RESERVED_length]) hlt2]
    have hcs : (Container.mk (FileHeader.new c.checksum)
        (DataHeader.new VERSION c.data_header.type_id c.toc.length rsv2)
        c.toc c.data).checksum = c.checksum :=
      checksum_congr _ c rfl rfl rfl
    simp only [readToc_tocBytes c.toc c.data hent]
    rw [if_neg (fun h => h hcs)]

theorem cancel_le32 (x y : Nat) (R1 R2 : List Nat)
    (h : le32 x ++ R1 = le32 y ++ R2) (hx : x < 4294967296)
    (hy : y < 4294967296) : x = y ∧ R1 = R2 := by
  have h2 := List.append_inj h (by simp only [le32_length])
  exact ⟨le32_inj x y hx hy h2.1, h2.2⟩

theorem contentBytes_decomp (c : Container)
    (hlen : c.toc.length < 4294967296) :
    contentBytes c = le32 VERSION ++ (le32 c.data_header.type_id ++
      (le32 c.toc.length ++ (u32sBytes RESERVED ++
        (tocBytes c.toc ++ c.data)))) := by
  simp only [contentBytes, Container.get_data_header, DataHeader.new,
    DataHeader.as_bytes, Nat.mod_eq_of_lt hlen, List.append_assoc]

/-- Flipping a byte of the type_id field: caught by the integrity check
unless the CRC-32 of the altered content collides with the stored one. -/
theorem c2_region_ty (c : Container) (hwf : WF c) (i v2 : Nat)
    (hv : v2 < 256) (hne : c.save_to_file[i]? ≠ some v2)
    (h12 : 12 ≤ i) (h16 : i < 16) :
    Container.from_file (c.save_to_file.set i v2) =
        .error .integrityError ∨
      Container.from_file (c.save_to_file.set i v2) = .error .eofError ∨
      ∃ c2, Container.from_file (c.save_to_file.set i v2) = .ok c2 ∧
        contentBytes c2 ≠ contentBytes c ∧
        crc32 (contentBytes c2) = crc32 (contentBytes c) := by
  obtain ⟨hty, hlen, hent, hdata⟩ := hwf
  have hD := save_decomp_r c hlen
  have hEi : c.save_to_file[i]? = (le32 c.data_header.type_id)[i - 12]? := by
    rw [hD, List.getElem?_append_right (by simp only [le32_length]; omega),
      List.getElem?_append_right (by simp only [le32_length]; omega),
      List.getElem?_append_right (by simp only [le32_length]; omega),
      List.getElem?_append_left (by simp only [le32_length]; omega)]
    simp only [le32_length]
    have hidx : i - 4 - 4 - 4 = i - 12 := by omega
    rw [hidx]
  obtain ⟨ty2, hset32, hlt2, hne2⟩ := set_le32 c.data_header.type_id
    (i - 12) v2 (by omega) hv hty
  have hner : ty2 ≠ c.data_header.type_id := hne2 (by rw [← hEi]; exact hne)
  have hE2 : c.save_to_file.set i v2 =
      le32 MAGIC ++ le32 c.checksum ++ le32 VERSION ++ le32 ty2 ++
        le32 c.toc.length ++ u32sBytes RESERVED ++
        (tocBytes c.toc ++ c.data) := by
    rw [hD,
      List.set_append_right i v2 (by simp only [le32_length]; omega),
      le32_length,
      List.set_append_right (i - 4) v2
        (by simp only [le32_length]; omega),
      le32_length,
      List.set_append_right (i - 4 - 4) v2
        (by simp only [le32_length]; omega),
      le32_length,
      List.set_append_left (i - 4 - 4 - 4) v2
        (by simp only [le32_length]; omega)]
    have hidx : i - 4 - 4 - 4 = i - 12 := by omega
    rw [hidx, hset32]
    simp [List.append_assoc]
  rw [hE2, from_file_generic c.checksum VERSION ty2 c.toc.length RESERVED
    (tocBytes c.toc ++ c.data) (checksum_lt c) (by decide) hlt2 hlen
    RESERVED_length RESERVED_lt]
  simp only [readToc_tocBytes c.toc c.data hent]
  by_cases hg : (Container.mk (FileHeader.new c.checksum)
      (DataHeader.new VERSION ty2 c.toc.length RESERVED) c.toc
      c.data).checksum = c.checksum
  · refine Or.inr (Or.inr ⟨Container.mk (FileHeader.new c.checksum)
      (DataHeader.new VERSION ty2 c.toc.length RESERVED) c.toc c.data,
      ?_, ?_, ?_⟩)
    · rw [if_neg (fun h => h hg)]
    · intro he
      rw [contentBytes_decomp _ (by simpa using hlen),
        contentBytes_decomp c hlen] at he
      simp only at he
      have s1 := List.append_cancel_left he
      have s2 := (cancel_le32 _ _ _ _ s1 hlt2 hty).1
      exact hner s2
    · rw [← checksum_eq_crc32, ← checksum_eq_crc32, hg]
  · refine Or.inl ?_
    rw [if_pos hg]

/-- Flipping a byte of the toc_size field: the parse either overruns the
input (end-of-file error) or resynchronizes differently, in which case the
integrity check catches it unless the CRC-32 collides. -/
theorem c2_region_size (c : Container) (hwf : WF c) (i v2 : Nat)
    (hv : v2 < 256) (hne : c.save_to_file[i]? ≠ some v2)
    (h16 : 16 ≤ i) (h20 : i < 20) :
    Container.from_file (c.save_to_file.set i v2) =
        .error .integrityError ∨
      Container.from_file (c.save_to_file.set i v2) = .error .eofError ∨
      ∃ c2, Container.from_file (c.save_to_file.set i v2) = .ok c2 ∧
        contentBytes c2 ≠ contentBytes c ∧
        crc32 (contentBytes c2) = crc32 (contentBytes c) := by
  obtain ⟨hty, hlen, hent, hdata⟩ := hwf
  have hD := save_decomp_r c hlen
  have hT : ∀ b ∈ tocBytes c.toc ++ c.data, b < 256 := fun b hb =>
    (List.mem_append.mp hb).elim (tocBytes_lt c.toc b) (hdata b)
  have hEi : c.save_to_file[i]? = (le32 c.toc.length)[i - 16]? := by
    rw [hD, List.getElem?_append_right (by simp only [le32_length]; omega),
      List.getElem?_append_right (by simp only [le32_length]; omega),
      List.getElem?_append_right (by simp only [le32_length]; omega),
      List.getElem?_append_right (by simp only [le32_length]; omega),
      List.getElem?_append_left (by simp only [le32_length]; omega)]
    simp only [le32_length]
    have hidx : i - 4 - 4 - 4 - 4 = i - 16 := by omega
    rw [hidx]
  obtain ⟨s2, hset32, hlt2, hne2⟩ := set_le32 c.toc.length (i - 16) v2
    (by omega) hv hlen
  have hner : s2 ≠ c.toc.length := hne2 (by rw [← hEi]; exact hne)
  have hE2 : c.save_to_file.set i v2 =
      le32 MAGIC ++ le32 c.checksum ++ le32 VERSION ++
        le32 c.data_header.type_id ++ le32 s2 ++ u32sBytes RESERVED ++
        (tocBytes c.toc ++ c.data) := by
    rw [hD,
      List.set_append_right i v2 (by simp only [le32_length]; omega),
      le32_length,
      List.set_append_right (i - 4) v2
        (by simp only [le32_length]; omega),
      le32_length,
      List.set_append_right (i - 4 - 4) v2
        (by simp only [le32_length]; omega),
      le32_length,
      List.set_append_right (i - 4 - 4 - 4) v2
        (by simp only [le32_length]; omega),
      le32_length,
      List.set_append_left (i - 4 - 4 - 4 - 4) v2
        (by simp only [le32_length]; omega)]
    have hidx : i - 4 - 4 - 4 - 4 = i - 16 := by omega
    rw [hidx, hset32]
    simp [List.append_assoc]
  rw [hE2, from_file_generic c.checksum VERSION c.data_header.type_id s2
    RESERVED (tocBytes c.toc ++ c.data) (checksum_lt c) (by decide) hty
    hlt2 RESERVED_length RESERVED_lt]
  cases hr : readToc s2 (tocBytes c.toc ++ c.data) with
  | error e =>
      refine Or.inr (Or.inl ?_)
      simp only [hr, readToc_error s2 _ e hr]
  | ok p =>
      obtain ⟨toc2, rest2⟩ := p
      obtain ⟨hsplit, hlen2⟩ := readToc_inv s2 _ toc2 rest2 hr hT
      simp only [hr]
      by_cases hg : (Container.mk (FileHeader.new c.checksum)
          (DataHeader.new VERSION c.data_header.type_id s2 RESERVED) toc2
          rest2).checksum = c.checksum
      · refine Or.inr (Or.inr ⟨Container.mk (FileHeader.new c.checksum)
          (DataHeader.new VERSION c.data_header.type_id s2 RESERVED) toc2
          rest2, ?_, ?_, ?_⟩)
        · rw [if_neg (fun h => h hg)]
        · intro he
          rw [contentBytes_decomp _ (by simpa using hlen2 ▸ hlt2),
            contentBytes_decomp c hlen] at he
          simp only at he
          have s1 := List.append_cancel_left he
          have s2eq := cancel_le32 _ _ _ _ s1 hty hty
          have s3 := cancel_le32 _ _ _ _ s2eq.2 (by rw [hlen2]; exact hlt2)
            hlen
          exact hner (hlen2 ▸ s3.1)
        · rw [← checksum_eq_crc32, ← checksum_eq_crc32, hg]
      · refine Or.inl ?_
        rw [if_pos hg]

/-- Flipping a byte of the TOC records or of the payload: caught by the
integrity check unless the CRC-32 of the altered content collides. -/
theorem c2_region_tail (c : Container) (hwf : WF c) (i v2 : Nat)
    (hv : v2 < 256) (hne : c.save_to_file[i]? ≠ some v2)
    (h64 : 64 ≤ i) (hilen : i < c.save_to_file.length) :
    Container.from_file (c.save_to_file.set i v2) =
        .error .integrityError ∨
      Container.from_file (c.save_to_file.set i v2) = .error .eofError ∨
      ∃ c2, Container.from_file (c.save_to_file.set i v2) = .ok c2 ∧
        contentBytes c2 ≠ contentBytes c ∧
        crc32 (contentBytes c2) = crc32 (contentBytes c) := by
  obtain ⟨hty, hlen, hent, hdata⟩ := hwf
  have hD := save_decomp_r c hlen
  have hT : ∀ b ∈ tocBytes c.toc ++ c.data, b < 256 := fun b hb =>
    (List.mem_append.mp hb).elim (tocBytes_lt c.toc b) (hdata b)
  have hTlen : i - 64 < (tocBytes c.toc ++ c.data).length := by
    have := save_length_eq c hlen
    omega
  have hEi : c.save_to_file[i]? = (tocBytes c.toc ++ c.data)[i - 64]? := by
    rw [hD, List.getElem?_append_right (by simp only [le32_length]; omega),
      List.getElem?_append_right (by simp only [le32_length]; omega),
      List.getElem?_append_right (by simp only [le32_length]; omega),
      List.getElem?_append_right (by simp only [le32_length]; omega),
      List.getElem?_append_right (by simp only [le32_length]; omega),
      List.getElem?_append_right (by
        simp only [le32_length, u32sBytes_length, RESERVED_length]
        omega)]
    simp only [le32_length, u32sBytes_length, RESERVED_length]
    have hidx : i - 4 - 4 - 4 - 4 - 4 - 4 * 11 = i - 64 := by omega
    rw [hidx]
  have hw := List.getElem?_eq_getElem hTlen
  have hvne : v2 ≠ (tocBytes c.toc ++ c.data)[i - 64] := by
    intro hveq
    exact hne (by rw [hEi, hw, hveq])
  have hE2 : c.save_to_file.set i v2 =
      le32 MAGIC ++ le32 c.checksum ++ le32 VERSION ++
        le32 c.data_header.type_id ++ le32 c.toc.length ++
        u32sBytes RESERVED ++ ((tocBytes c.toc ++ c.data).set (i - 64) v2) := by
    rw [hD,
      List.set_append_right i v2 (by simp only [le32_length]; omega),
      le32_length,
      List.set_append_right (i - 4) v2
        (by simp only [le32_length]; omega),
      le32_length,
      List.set_append_right (i - 4 - 4) v2
        (by simp only [le32_length]; omega),
      le32_length,
      List.set_append_right (i - 4 - 4 - 4) v2
        (by simp only [le32_length]; omega),
      le32_length,
      List.set_append_right (i - 4 - 4 - 4 - 4) v2
        (by simp only [le32_length]; omega),
      le32_length,
      List.set_append_right (i - 4 - 4 - 4 - 4 - 4) v2 (by
        simp only [u32sBytes_length, RESERVED_length]
        omega)]
    simp only [u32sBytes_length, RESERVED_length]
    have hidx : i - 4 - 4 - 4 - 4 - 4 - 4 * 11 = i - 64 := by omega
    rw [hidx]
    simp [List.append_assoc]
  have hT2 : ∀ b ∈ (tocBytes c.toc ++ c.data).set (i - 64) v2, b < 256 :=
    set_lt _ _ _ hv hT
  rw [hE2, from_file_generic c.checksum VERSION c.data_header.type_id
    c.toc.length RESERVED ((tocBytes c.toc ++ c.data).set (i - 64) v2)
    (checksum_lt c) (by decide) hty hlen RESERVED_length RESERVED_lt]
  cases hr : readToc c.toc.length
      ((tocBytes c.toc ++ c.data).set (i - 64) v2) with
  | error e =>
      refine Or.inr (Or.inl ?_)
      simp only [hr, readToc_error _ _ e hr]
  | ok p =>
      obtain ⟨toc2, rest2⟩ := p
      obtain ⟨hsplit, hlen2⟩ := readToc_inv _ _ toc2 rest2 hr hT2
      simp only [hr]
      by_cases hg : (Container.mk (FileHeader.new c.checksum)
          (DataHeader.new VERSION c.data_header.type_id c.toc.length
            RESERVED) toc2 rest2).checksum = c.checksum
      · refine Or.inr (Or.inr ⟨Container.mk (FileHeader.new c.checksum)
          (DataHeader.new VERSION c.data_header.type_id c.toc.length
            RESERVED) toc2 rest2, ?_, ?_, ?_⟩)
        · rw [if_neg (fun h => h hg)]
        · intro he
          rw [contentBytes_decomp _ (by simpa using hlen2 ▸ hlen),
            contentBytes_decomp c hlen] at he
          simp only at he
          have s1 := List.append_cancel_left he
          have s2 := cancel_le32 _ _ _ _ s1 hty hty
          have s3 := cancel_le32 _ _ _ _ s2.2 (by rw [hlen2]; exact hlen)
            hlen
          have s4 := List.append_cancel_left s3.2
          rw [← hsplit] at s4
          exact set_ne (tocBytes c.toc ++ c.data) (i - 64) v2 _ hw hvne s4
        · rw [← checksum_eq_crc32, ← checksum_eq_crc32, hg]
      · refine Or.inl ?_
        rw [if_pos hg]

/-- C2 (amended): changing one byte of a validly encoded well-formed
container to a different value is detected as follows.  A flip inside the
stored checksum field (bytes 4..7) always decodes to an integrity error.
A flip inside the version field (bytes 8..11) or the reserved words
(bytes 20..63) is NOT detected: decoding succeeds, because the checksum
is recomputed over a regenerated constant header.  A flip anywhere else
outside the magic — type_id, toc_size, the TOC records or the payload —
makes decoding fail (with an integrity error, or an end-of-input error
when a corrupted toc_size overruns the stream) except when the CRC-32 of
the altered content collides with the stored checksum. -/
theorem c2_corruption (c : Container) (hwf : WF c) (i v2 : Nat)
    (hv : v2 < 256) (hne : c.save_to_file[i]? ≠ some v2) :
    ((4 ≤ i ∧ i < 8) →
      Container.from_file (c.save_to_file.set i v2) =
        .error .integrityError) ∧
    (((8 ≤ i ∧ i < 12) ∨ (20 ≤ i ∧ i < 64)) →
      ∃ c2, Container.from_file (c.save_to_file.set i v2) = .ok c2) ∧
    (((12 ≤ i ∧ i < 20) ∨ (64 ≤ i ∧ i < c.save_to_file.length)) →
      Container.from_file (c.save_to_file.set i v2) =
          .error .integrityError ∨
        Container.from_file (c.save_to_file.set i v2) = .error .eofError ∨
        ∃ c2, Container.from_file (c.save_to_file.set i v2) = .ok c2 ∧
          contentBytes c2 ≠ contentBytes c ∧
          crc32 (contentBytes c2) = crc32 (contentBytes c)) := by
  refine ⟨fun h => c2_region_chk c hwf i v2 hv hne h.1 h.2,
    fun hr => c2_region_undetected c hwf i v2 hv hr, fun hr => ?_⟩
  rcases hr with ⟨h1, h2⟩ | ⟨h1, h2⟩
  · by_cases h16 : i < 16
    · exact c2_region_ty c hwf i v2 hv hne h1 h16
    · exact c2_region_size c hwf i v2 hv hne (by omega) h2
  · exact c2_region_tail c hwf i v2 hv hne h1 h2

/-- Witness for C2: flipping the first TOC byte (offset 64, the low byte
of a writer id) of a one-entry container. -/
theorem c2_corruption_witness :
    Container.from_file
        ((((Container.new 3).push 1 [7] 9).save_to_file).set 64 2) =
        .error .integrityError ∨
      Container.from_file
        ((((Container.new 3).push 1 [7] 9).save_to_file).set 64 2) =
        .error .eofError ∨
      ∃ c2, Container.from_file
          ((((Container.new 3).push 1 [7] 9).save_to_file).set 64 2) =
          .ok c2 ∧
        contentBytes c2 ≠ contentBytes ((Container.new 3).push 1 [7] 9) ∧
        crc32 (contentBytes c2) =
          crc32 (contentBytes ((Container.new 3).push 1 [7] 9)) :=
  (c2_corruption ((Container.new 3).push 1 [7] 9)
    (by unfold WF; decide) 64 2
    (by decide) (by decide)).2.2 (Or.inr ⟨by decide, by decide⟩)

/-- Counterexample to C2 as stated: flipping byte 8 (the low byte of the
version field, outside the magic) of a freshly written empty container
does NOT produce an integrity error — decoding succeeds. -/
theorem c2_counterexample :
    4 ≤ 8 ∧ (Container.new 0).save_to_file[8]? = some 0 ∧ (1 : Nat) ≠ 0 ∧
    ∃ c2, Container.from_file ((Container.new 0).save_to_file.set 8 1) =
      Except.ok c2 :=
  ⟨by decide, by decide, by decide,
    c2_region_undetected (Container.new 0) (by unfold WF; decide) 8 1
      (by decide) (Or.inl ⟨le_refl 8, by decide⟩)⟩

end BlobQueue
